import Mathlib

/-!
Verification of the deposit watcher of nano-rpc-proxy.

The definitions below are a shallow embedding of the watcher code
(the JavaScript watcher embedded in `status.sh`, and `deposits.js`):
JavaScript BigInt values become `Int`, machine timestamps become `Nat`
milliseconds, the KV store becomes an explicit `WatcherState`, and each
KV write or HTTP call performed by a polling pass is recorded as an
`Effect` in a trace so that ordering properties can be stated.
-/

namespace NanoRpcProxy

/-- A JavaScript value in the positions where `toBigInt` (deposits.js)
inspects its argument: `undefined`, `null`, a BigInt, a finite number
(represented by its `Math.trunc`), a non-finite number (NaN or infinity),
or a string. -/
inductive JsVal where
  | undef
  | null
  | bigint (i : Int)
  | numFinite (i : Int)
  | numNonFinite
  | str (s : String)
  deriving DecidableEq, Repr

/-- Digits-only decimal parse used to model the `BigInt(string)` constructor
body (decimal form): `none` when the character list is empty or contains a
non-digit. -/
def parseDecimalDigits (cs : List Char) : Option Nat :=
  if cs.isEmpty then none
  else if cs.all (fun c => c.isDigit) then
    some (cs.foldl (fun n c => n * 10 + (c.toNat - '0'.toNat)) 0)
  else none

/-- Model of `BigInt(s)` on an already-trimmed string `s` restricted to the
decimal forms the watcher feeds it: an optional sign followed by digits.
`none` models the thrown `SyntaxError` that `toBigInt` catches. -/
def parseBigIntString (s : String) : Option Int :=
  match s.toList with
  | '-' :: rest => (parseDecimalDigits rest).map (fun n => -(n : Int))
  | '+' :: rest => (parseDecimalDigits rest).map (fun n => (n : Int))
  | cs => (parseDecimalDigits cs).map (fun n => (n : Int))

/-- deposits.js `toBigInt`: `undefined`/`null` give `null`; a BigInt is
returned as is; a finite number is truncated; a string is trimmed and, when
non-empty, parsed (parse failure gives `null`); everything else (including
non-finite numbers) gives `null`. -/
def toBigInt : JsVal → Option Int
  | .undef => none
  | .null => none
  | .bigint i => some i
  | .numFinite i => some i
  | .numNonFinite => none
  | .str s => if s.trim ≠ "" then parseBigIntString s.trim else none

/-- String.prototype.padStart with a single pad character. -/
def padStart (s : String) (n : Nat) (c : Char) : String :=
  if n ≤ s.length then s
  else String.mk (List.replicate (n - s.length) c) ++ s

/-- Model of `.replace(/0+$/, '')`: drop every trailing `'0'`. -/
def stripTrailingZeros (s : String) : String :=
  String.mk ((s.toList.reverse.dropWhile (fun c => c = '0')).reverse)

/-- deposits.js `formatAtomicAmount`: convert an atomic integer amount to a
fixed-point decimal string with `decimals` fractional digits.  BigInt `/`
truncates toward zero (`Int.tdiv`) and BigInt `%` keeps the dividend sign
(`Int.tmod`), exactly as in JavaScript. -/
def formatAtomicAmount (value : JsVal) (decimals : Nat) : Option String :=
  match toBigInt value with
  | none => none
  | some atomic =>
    let scale : Int := (10 : Int) ^ decimals
    let integer : Int := atomic.tdiv scale
    let fraction : Int := atomic.tmod scale
    if fraction = 0 then some (toString integer)
    else
      let fractionStr := stripTrailingZeros (padStart (toString fraction) decimals '0')
      some (toString integer ++ "." ++ fractionStr)

/-- status.sh watcher `computeDynamicMinConfirmations`: the amount-tiered
confirmation policy.  `decimals` is a JS number; the code replaces it by 12
unless it is finite and non-negative (`Int` here models the finite case). -/
def computeDynamicMinConfirmations (amountAtomic : JsVal) (decimals : Int) : Option Nat :=
  match toBigInt amountAtomic with
  | none => .none
  | some atomic =>
    let safeDecimals : Nat := if 0 ≤ decimals then decimals.toNat else 12
    let scale : Int := (10 : Int) ^ safeDecimals
    let threshold50 : Int := 50 * scale
    let threshold100 : Int := 100 * scale
    if atomic < threshold50 then some 1
    else if atomic < threshold100 then some 3
    else some 6

/-- status.sh watcher `truncateText`: cap a string at `maxLen` characters. -/
def truncateText (value : String) (maxLen : Nat) : String :=
  if value.length ≤ maxLen then value
  else String.mk (value.toList.take maxLen)

/-- Watcher configuration fields used by `handleJob` (all numeric fields are
the non-negative values produced by `asNumber` on the documented defaults). -/
structure Config where
  minConfirmations : Nat
  decimals : Nat
  webhookMaxAttempts : Nat
  webhookMaxRetryWindowMs : Nat
  webhookBackoffBaseMs : Nat
  webhookBackoffFactor : Nat
  webhookBackoffMaxMs : Nat
  webhookBackoffJitter : Bool
  seenTtlSeconds : Nat
  statusTtlSeconds : Nat
  deriving DecidableEq, Repr

/-- status.sh watcher `computeWebhookBackoffDelayMs`.  `roll d` models
`Math.floor(Math.random() * d)`, the jittered draw; with jitter disabled the
function is deterministic.  `Math.max(0, ...)` and `Math.floor` are identities
on `Nat`. -/
def computeWebhookBackoffDelayMs (attempts : Nat) (cfg : Config) (roll : Nat → Nat) : Nat :=
  let baseMs := cfg.webhookBackoffBaseMs
  let factor := cfg.webhookBackoffFactor
  let maxMs := cfg.webhookBackoffMaxMs
  let delay := min (baseMs * factor ^ (max 0 attempts)) maxMs
  let delay := if cfg.webhookBackoffJitter then roll delay else delay
  max 0 delay

end NanoRpcProxy

namespace NanoRpcProxy

/-- A deposit Job record as the watcher reads it from the KV hash
(`getDepositJob`).  String-encoded numeric fields are modelled by their
`asNumber` value; an absent `minConf` is `none`. -/
structure Job where
  address : String
  txId : String
  paymentId : String
  minConf : Option Nat
  dynamicMinConfApplied : Bool
  webhookSent : Bool
  webhookAttempts : Nat
  webhookFirstAttemptAt : Nat
  webhookLastAttemptAt : Nat
  webhookNextAttemptAt : Nat
  webhookLastError : String
  deriving DecidableEq, Repr

/-- `job.paymentId || job.txId`, the payment id written into Status records. -/
def Job.statusPaymentId (job : Job) : String :=
  if job.paymentId ≠ "" then job.paymentId else job.txId

/-- The four values of the `status` field of a Status record. -/
inductive StatusKind where
  | PENDING
  | CONFIRMING
  | COMPLETED
  | FAILED
  deriving DecidableEq, Repr

/-- The Status JSON blob (the fields the claims are about). -/
structure StatusRec where
  kind : StatusKind
  confirmations : Nat
  requiredConfirmations : Nat
  hash : String
  paymentId : String
  webhookError : Option String
  deriving DecidableEq, Repr

/-- A normalized deposit observation as returned by the fetch layer. -/
structure Observation where
  hash : String
  amountAtomic : Nat
  confirmations : Nat
  deriving DecidableEq, Repr

/-- The KV state relevant to one Job: the Job hash, its Status record, and
the set of transaction hashes that have a `Seen` entry. -/
structure WatcherState where
  job : Option Job
  status : Option StatusRec
  seen : List String
  deriving DecidableEq, Repr

/-- One KV write or outbound call performed by a polling pass, in program
order.  `seenCheck` records the `isSeen` KV read so that its position
relative to `buildPayload` (payload construction) can be stated. -/
inductive Effect where
  | deleteJob
  | backfillPaymentId (pid : String)
  | ledgerFirstSeen (hash : String)
  | hsetDynamicMinConf (minConf : Nat)
  | statusWrite (kind : StatusKind) (webhookError : Option String)
  | seenCheck (hash : String)
  | buildPayload (hash : String)
  | dispatch (hash : String) (ok : Bool)
  | ledgerWebhookResult (ok : Bool)
  | hsetWebhookSent
  | hsetRetryState (attempts firstAt lastAt nextAt : Nat) (lastError : String)
  | markSeen (hash : String)
  deriving DecidableEq, Repr

/-- The per-pass environment: the current wall clock, the deposits returned
by `fetchDeposits`, the webhook response that `sendWebhook` would produce if
called in this pass, and the jitter draw used by the backoff computation. -/
structure PassInput where
  now : Nat
  deposits : List Observation
  webhookOk : Bool
  webhookError : String
  jitterRoll : Nat → Nat

/-- `deposits.slice().sort((a, b) => b.confirmations - a.confirmations)[0]`:
the first observation with maximal confirmations (the sort is stable). -/
def bestObservation : List Observation → Option Observation
  | [] => none
  | d :: ds => some (ds.foldl (fun acc x => if acc.confirmations < x.confirmations then x else acc) d)

/-- `deposits.filter((d) => d.confirmations >= minConf)` sorted descending,
first element: the best observation meeting the threshold. -/
def confirmedObservation (deposits : List Observation) (minConf : Nat) : Option Observation :=
  bestObservation (deposits.filter (fun d => minConf ≤ d.confirmations))

/-- Intermediate data at the point of `handleJob` where a confirmed deposit
has been found: the Job object as loaded at the start of the pass, the
effective minimum-confirmation threshold, the confirmed observation, the KV
state after the backfill/ledger/dynamic writes, and the effects so far. -/
structure ConfirmedCtx where
  job : Job
  minConf : Nat
  confirmed : Observation
  midState : WatcherState
  trace : List Effect
  deriving DecidableEq, Repr

/-- Builder for a Status record write. -/
def mkStatus (kind : StatusKind) (confirmations requiredConfirmations : Nat)
    (hash paymentId : String) (webhookError : Option String) : StatusRec :=
  { kind := kind, confirmations := confirmations,
    requiredConfirmations := requiredConfirmations,
    hash := hash, paymentId := paymentId, webhookError := webhookError }

/-- The below-threshold tail of `handleJob`: when deposits were seen but none
meets the threshold, publish a CONFIRMING status for the best observation
(when it has a hash) and return. -/
def confirmingBelowThreshold (st : WatcherState) (tr : List Effect) (job : Job)
    (minConf : Nat) (best : Observation) : WatcherState × List Effect :=
  if best.hash = "" then (st, tr)
  else
    ({ st with status := some (mkStatus .CONFIRMING best.confirmations minConf best.hash job.statusPaymentId none) },
     tr ++ [.statusWrite .CONFIRMING none])

/-- Selection of the confirmed observation (`const confirmed = deposits.filter
...`): when it exists and has a hash the pass proceeds to the webhook logic,
otherwise it publishes a CONFIRMING status and ends. -/
def selectConfirmed (st : WatcherState) (tr : List Effect) (job : Job) (minConf : Nat)
    (deposits : List Observation) (best : Observation) :
    (WatcherState × List Effect) ⊕ ConfirmedCtx :=
  match confirmedObservation deposits minConf with
  | some confirmed =>
    if confirmed.hash = "" then .inl (confirmingBelowThreshold st tr job minConf best)
    else .inr ⟨job, minConf, confirmed, st, tr⟩
  | none => .inl (confirmingBelowThreshold st tr job minConf best)

/-- The `paymentId` backfill step of `handleJob`: when the Job hash lacks a
`paymentId`, copy it from the Status record (when present there) with a
field-level `hset`. -/
def backfillStage (st : WatcherState) (job : Job) : WatcherState × List Effect :=
  if job.paymentId = "" ∧ ((st.status.map (fun s => s.paymentId)).getD "") ≠ "" then
    ({ st with job := some { job with paymentId := (st.status.map (fun s => s.paymentId)).getD "" } },
     [.backfillPaymentId ((st.status.map (fun s => s.paymentId)).getD "")])
  else (st, [])

/-- The ledger first-seen write of `handleJob` (emitted when the best
observation has a hash). -/
def ledgerTrace (best : Observation) : List Effect :=
  if best.hash = "" then [] else [.ledgerFirstSeen best.hash]

/-- The dynamic-confirmation step of `handleJob`: when the policy value
exists, the flag is not yet latched, the Status is not COMPLETED and the
value differs from the current threshold, persist the new `minConf` together
with `dynamicMinConfApplied = true` and use it for this pass.  Returns the
updated state, the emitted effects, and the effective threshold. -/
def dynamicStage (cfg : Config) (st1 : WatcherState) (job : Job) (minConf0 : Nat)
    (best : Observation) : WatcherState × List Effect × Nat :=
  match computeDynamicMinConfirmations (.bigint (best.amountAtomic : Int)) (cfg.decimals : Int) with
  | some dyn =>
    if job.dynamicMinConfApplied = false ∧
        ((st1.status.map (fun s => s.kind)).getD .PENDING) ≠ StatusKind.COMPLETED ∧
        dyn ≠ minConf0 then
      ({ st1 with job := st1.job.map (fun j => { j with minConf := some dyn, dynamicMinConfApplied := true }) },
       [.hsetDynamicMinConf dyn], dyn)
    else (st1, [], minConf0)
  | none => (st1, [], minConf0)

/-- The first half of `handleJob` (status.sh watcher): load and validate the
Job, backfill `paymentId` from the Status record, take the fetched deposits,
record the ledger first-seen entry, apply the dynamic confirmation policy,
and select the confirmed observation.  Returns `.inl` when the pass ends here
and `.inr` with a `ConfirmedCtx` when a confirmed deposit was found. -/
def handleJobPre (cfg : Config) (st : WatcherState) (inp : PassInput) :
    (WatcherState × List Effect) ⊕ ConfirmedCtx :=
  match st.job with
  | none => .inl ({ st with job := none }, [.deleteJob])
  | some job =>
    if job.address = "" ∨ job.txId = "" then
      .inl ({ st with job := none }, [.deleteJob])
    else
      match bestObservation inp.deposits with
      | none => .inl (backfillStage st job)
      | some best =>
        selectConfirmed
          (dynamicStage cfg (backfillStage st job).1 job (job.minConf.getD cfg.minConfirmations) best).1
          ((backfillStage st job).2 ++ ledgerTrace best ++
            (dynamicStage cfg (backfillStage st job).1 job (job.minConf.getD cfg.minConfirmations) best).2.1)
          job
          (dynamicStage cfg (backfillStage st job).1 job (job.minConf.getD cfg.minConfirmations) best).2.2
          inp.deposits best

/-- `now - webhookFirstAttemptAt > maxRetryWindowMs` with the code's guards:
the window must be configured positive and a first attempt recorded. -/
abbrev windowExceeded (cfg : Config) (job : Job) (now : Nat) : Prop :=
  0 < cfg.webhookMaxRetryWindowMs ∧ job.webhookFirstAttemptAt ≠ 0 ∧
    cfg.webhookMaxRetryWindowMs < now - job.webhookFirstAttemptAt

/-- `maxAttempts > 0 && webhookAttempts >= maxAttempts`. -/
abbrev maxAttemptsReached (cfg : Config) (job : Job) : Prop :=
  0 < cfg.webhookMaxAttempts ∧ cfg.webhookMaxAttempts ≤ job.webhookAttempts

/-- `webhookNextAttemptAt && now < webhookNextAttemptAt`. -/
abbrev inBackoffWindow (job : Job) (now : Nat) : Prop :=
  job.webhookNextAttemptAt ≠ 0 ∧ now < job.webhookNextAttemptAt

/-- `attemptedNow && !(maxAttempts > 0 && webhookAttempts >= maxAttempts)`. -/
abbrev shouldRecordFailure (cfg : Config) (job : Job) (now : Nat) : Prop :=
  (job.webhookNextAttemptAt = 0 ∨ job.webhookNextAttemptAt ≤ now) ∧ ¬ maxAttemptsReached cfg job

/-- The CONFIRMING status refresh written ahead of the webhook attempt. -/
def confirmingStatusRec (ctx : ConfirmedCtx) : StatusRec :=
  mkStatus .CONFIRMING ctx.confirmed.confirmations ctx.minConf ctx.confirmed.hash
    ctx.job.statusPaymentId none

/-- Effects common to every path that reaches the webhook logic with
`webhookSent` still false: the Seen read, the payload construction, and the
CONFIRMING status refresh. -/
def hcPrefixTrace (ctx : ConfirmedCtx) : List Effect :=
  [.seenCheck ctx.confirmed.hash, .buildPayload ctx.confirmed.hash, .statusWrite .CONFIRMING none]

/-- Branch of `handleJob`: `Seen[confirmed.hash]` exists, so the Job is
deleted without building a payload or dispatching. -/
def hcSeenLeaf (ctx : ConfirmedCtx) : WatcherState × List Effect :=
  ({ ctx.midState with job := none }, [.seenCheck ctx.confirmed.hash, .deleteJob])

/-- Branch of `handleJob`: `webhookSent` is already true, so the dispatch
block is skipped and the pass only marks Seen and deletes the Job. -/
def hcSentLeaf (ctx : ConfirmedCtx) : WatcherState × List Effect :=
  ({ ctx.midState with seen := ctx.confirmed.hash :: ctx.midState.seen, job := none },
   [.seenCheck ctx.confirmed.hash, .buildPayload ctx.confirmed.hash,
    .markSeen ctx.confirmed.hash, .deleteJob])

/-- Branch of `handleJob`: the retry window is exceeded; write FAILED with
the last webhook error, mark Seen, delete the Job. -/
def hcWindowLeaf (ctx : ConfirmedCtx) : WatcherState × List Effect :=
  let lastError := truncateText
    (if ctx.job.webhookLastError = "" then "webhook retry window exceeded" else ctx.job.webhookLastError) 500
  ({ ctx.midState with
      status := some (mkStatus .FAILED ctx.confirmed.confirmations ctx.minConf ctx.confirmed.hash ctx.job.statusPaymentId (some lastError)),
      seen := ctx.confirmed.hash :: ctx.midState.seen,
      job := none },
   hcPrefixTrace ctx ++ [.statusWrite .FAILED (some lastError), .markSeen ctx.confirmed.hash, .deleteJob])

/-- Branch of `handleJob`: max attempts reached or still backing off; the
pass returns with the Job retained and the CONFIRMING refresh written. -/
def hcHeldLeaf (ctx : ConfirmedCtx) : WatcherState × List Effect :=
  ({ ctx.midState with status := some (confirmingStatusRec ctx) }, hcPrefixTrace ctx)

/-- Branch of `handleJob`: the webhook was dispatched and returned 2xx;
write COMPLETED, persist `webhookSent = true` (clearing retry fields), then
mark Seen and delete the Job. -/
def hcOkLeaf (ctx : ConfirmedCtx) : WatcherState × List Effect :=
  ({ ctx.midState with
      status := some (mkStatus .COMPLETED ctx.confirmed.confirmations ctx.minConf ctx.confirmed.hash ctx.job.statusPaymentId none),
      seen := ctx.confirmed.hash :: ctx.midState.seen,
      job := none },
   hcPrefixTrace ctx ++ [.dispatch ctx.confirmed.hash true, .ledgerWebhookResult true,
     .statusWrite .COMPLETED none, .hsetWebhookSent, .markSeen ctx.confirmed.hash, .deleteJob])

/-- Branch of `handleJob`: the webhook attempt failed and the failure is
recorded: increment `webhookAttempts`, set the first/last/next attempt
timestamps with the backoff delay, store the truncated error, and refresh
CONFIRMING.  The Job is retained. -/
def hcFailLeaf (cfg : Config) (inp : PassInput) (ctx : ConfirmedCtx) : WatcherState × List Effect :=
  let attempts := ctx.job.webhookAttempts + 1
  let delayMs := computeWebhookBackoffDelayMs attempts cfg inp.jitterRoll
  let nextAttemptAt := inp.now + delayMs
  let lastError := truncateText
    (if inp.webhookError = "" then "webhook attempt failed" else inp.webhookError) 500
  let firstAttemptAt :=
    if ctx.job.webhookFirstAttemptAt = 0 then inp.now else ctx.job.webhookFirstAttemptAt
  ({ ctx.midState with
      job := ctx.midState.job.map (fun j =>
        { j with webhookAttempts := attempts, webhookFirstAttemptAt := firstAttemptAt,
                 webhookLastAttemptAt := inp.now, webhookNextAttemptAt := nextAttemptAt,
                 webhookLastError := lastError }),
      status := some (confirmingStatusRec ctx) },
   hcPrefixTrace ctx ++ [.dispatch ctx.confirmed.hash false, .ledgerWebhookResult false,
     .hsetRetryState attempts firstAttemptAt inp.now nextAttemptAt lastError,
     .statusWrite .CONFIRMING none])

/-- Branch of `handleJob`: the webhook attempt failed but the failure is not
recorded (`shouldRecordFailure` false); only the CONFIRMING refresh is
written and the Job is retained. -/
def hcFailNoRecordLeaf (ctx : ConfirmedCtx) : WatcherState × List Effect :=
  ({ ctx.midState with status := some (confirmingStatusRec ctx) },
   hcPrefixTrace ctx ++ [.dispatch ctx.confirmed.hash false, .ledgerWebhookResult false,
     .statusWrite .CONFIRMING none])

/-- The confirmed-deposit half of `handleJob` (status.sh watcher): the Seen
guard, the payload construction, the `webhookSent` short-circuit, the retry
budgets, the dispatch, and the terminal writes, in source order. -/
def handleConfirmed (cfg : Config) (inp : PassInput) (ctx : ConfirmedCtx) :
    WatcherState × List Effect :=
  if ctx.midState.seen.contains ctx.confirmed.hash then hcSeenLeaf ctx
  else if ctx.job.webhookSent then hcSentLeaf ctx
  else if windowExceeded cfg ctx.job inp.now then hcWindowLeaf ctx
  else if maxAttemptsReached cfg ctx.job then hcHeldLeaf ctx
  else if inBackoffWindow ctx.job inp.now then hcHeldLeaf ctx
  else if inp.webhookOk then hcOkLeaf ctx
  else if shouldRecordFailure cfg ctx.job inp.now then hcFailLeaf cfg inp ctx
  else hcFailNoRecordLeaf ctx
def handleJob (cfg : Config) (st : WatcherState) (inp : PassInput) :
    WatcherState × List Effect :=
  match handleJobPre cfg st inp with
  | .inl done => done
  | .inr ctx =>
    let res := handleConfirmed cfg inp ctx
    (res.1, ctx.trace ++ res.2)

/-- A sequence of polling passes over the same Job, each with its own
environment; returns the final state and the trace of every pass. -/
def runPasses (cfg : Config) : WatcherState → List PassInput → WatcherState × List (List Effect)
  | st, [] => (st, [])
  | st, inp :: rest =>
    let r := handleJob cfg st inp
    let f := runPasses cfg r.1 rest
    (f.1, r.2 :: f.2)

/-- A pass trace in which a webhook dispatch received a 2xx response. -/
def dispatchOk (tr : List Effect) : Bool :=
  tr.any fun e => match e with
    | .dispatch _ true => true
    | _ => false

/-- A pass trace in which the dynamic confirmation policy replaced `minConf`. -/
def dynApplied (tr : List Effect) : Bool :=
  tr.any fun e => match e with
    | .hsetDynamicMinConf _ => true
    | _ => false

end NanoRpcProxy

namespace NanoRpcProxy

/-- A `get_payments` result entry (the fields `fetchViaRpc` reads). -/
structure Payment where
  tx_hash : String
  amount : Nat
  block_height : Nat
  confirmations : Nat
  deriving DecidableEq, Repr

/-- A subtransfer of a `get_recent_txs_and_info2` transfer. -/
structure Subtransfer where
  is_income : Bool
  amount : Nat
  asset_id : String
  deriving DecidableEq, Repr

/-- A `get_recent_txs_and_info2` transfer (the fields `fetchViaRpc` reads). -/
structure Transfer where
  payment_id : String
  tx_hash : String
  height : Nat
  subtransfers : List Subtransfer
  deriving DecidableEq, Repr

/-- `byHash` upsert: keep the entry with the most confirmations per hash
(JS `Map.set` preserves insertion order and replaces in place). -/
def insertObs (byHash : List Observation) (e : Observation) : List Observation :=
  match byHash.find? (fun x => x.hash == e.hash) with
  | none => byHash ++ [e]
  | some existing =>
    if existing.confirmations < e.confirmations then
      byHash.map (fun x => if x.hash == e.hash then e else x)
    else byHash

/-- A `get_payments` entry mapped to an observation:
`confirmations = max(currentHeight - block_height + 1, 0)` when both heights
are known, else the entry's own `confirmations` field. -/
def paymentObservation (currentHeight : Nat) (p : Payment) : Observation :=
  { hash := p.tx_hash, amountAtomic := p.amount,
    confirmations :=
      if 0 < p.block_height ∧ 0 < currentHeight then
        ((currentHeight : Int) - (p.block_height : Int) + 1).toNat
      else p.confirmations }

/-- The `byHash` map after the `get_payments` loop of `fetchViaRpc`. -/
def insertPayments (currentHeight : Nat) (payments : List Payment) : List Observation :=
  payments.foldl (fun m p => insertObs m (paymentObservation currentHeight p)) []

/-- JS `String.prototype.trim`: strip leading and trailing whitespace. -/
def jsTrim (s : String) : String :=
  String.mk (((s.toList.dropWhile Char.isWhitespace).reverse.dropWhile
    Char.isWhitespace).reverse)

/-- The observations one transfer contributes in the
`get_recent_txs_and_info2` fallback loop: the transfer must carry the Job's
`payment_id`; each subtransfer must be `is_income` and match the expected
asset id (asset mode) or have an empty asset id (base-coin mode). -/
def subtransferEntries (expectedAssetId : String) (currentHeight : Nat) (paymentId : String)
    (tx : Transfer) : List Observation :=
  if tx.payment_id ≠ paymentId then []
  else
    let confirmations :=
      if 0 < tx.height ∧ 0 < currentHeight then
        ((currentHeight : Int) - (tx.height : Int) + 1).toNat
      else 0
    (tx.subtransfers.filter (fun s =>
        s.is_income && (if expectedAssetId ≠ "" then jsTrim s.asset_id == expectedAssetId
                        else jsTrim s.asset_id == ""))).map
      (fun s => { hash := tx.tx_hash, amountAtomic := s.amount, confirmations := confirmations })

/-- The fallback loop of `fetchViaRpc` over `get_recent_txs_and_info2`
transfers, extending `byHash` (entries with an empty hash are skipped). -/
def recentTxsFallback (expectedAssetId : String) (currentHeight : Nat) (paymentId : String)
    (transfers : List Transfer) (byHash : List Observation) : List Observation :=
  transfers.foldl
    (fun m tx =>
      (subtransferEntries expectedAssetId currentHeight paymentId tx).foldl
        (fun m2 e => if e.hash = "" then m2 else insertObs m2 e) m)
    byHash

/-- The pure core of `fetchViaRpc` (status.sh watcher): `payments` is what
`get_payments` would return and `transfers` what `get_recent_txs_and_info2`
would return.  With an asset id configured the `get_payments` call is not
made (modelled by discarding `payments`); the fallback runs only when the
map built from payments is empty. -/
def fetchViaRpc (expectedAssetIdRaw : String) (currentHeight : Nat) (payments : List Payment)
    (transfers : List Transfer) (paymentId : String) : List Observation :=
  if paymentId = "" then []
  else
    let expectedAssetId := jsTrim expectedAssetIdRaw
    let payments2 := if expectedAssetId = "" then payments else []
    let byHash := insertPayments currentHeight payments2
    if byHash.isEmpty then recentTxsFallback expectedAssetId currentHeight paymentId transfers byHash
    else byHash

end NanoRpcProxy

namespace NanoRpcProxy

lemma bool_ne_true {b : Bool} (h : b = false) : ¬ (b = true) := by
  rw [h]; exact Bool.false_ne_true

lemma dispatchOk_append (a b : List Effect) :
    dispatchOk (a ++ b) = (dispatchOk a || dispatchOk b) := by
  simp [dispatchOk, List.any_append]

lemma dynApplied_append (a b : List Effect) :
    dynApplied (a ++ b) = (dynApplied a || dynApplied b) := by
  simp [dynApplied, List.any_append]

lemma dispatchOk_iff (tr : List Effect) :
    dispatchOk tr = true ↔ ∃ hsh, Effect.dispatch hsh true ∈ tr := by
  rw [dispatchOk, List.any_eq_true]
  constructor
  · rintro ⟨e, he, hp⟩
    split at hp
    · next hsh => exact ⟨hsh, he⟩
    · cases hp
  · rintro ⟨hsh, hmem⟩
    exact ⟨.dispatch hsh true, hmem, rfl⟩

lemma dynApplied_iff (tr : List Effect) :
    dynApplied tr = true ↔ ∃ m, Effect.hsetDynamicMinConf m ∈ tr := by
  rw [dynApplied, List.any_eq_true]
  constructor
  · rintro ⟨e, he, hp⟩
    split at hp
    · next m => exact ⟨m, he⟩
    · cases hp
  · rintro ⟨m, hmem⟩
    exact ⟨.hsetDynamicMinConf m, hmem, rfl⟩

/-- The only effects the pre-confirmation stages emit. -/
def PreTraceOnly (tr : List Effect) : Prop :=
  ∀ e ∈ tr, (∃ p, e = .backfillPaymentId p) ∨ (∃ hsh, e = .ledgerFirstSeen hsh) ∨
            (∃ m, e = .hsetDynamicMinConf m)

lemma preTraceOnly_append {a b : List Effect} (ha : PreTraceOnly a) (hb : PreTraceOnly b) :
    PreTraceOnly (a ++ b) := by
  intro e he
  rcases List.mem_append.mp he with h | h
  · exact ha e h
  · exact hb e h

lemma preTraceOnly_facts {tr : List Effect} (h : PreTraceOnly tr) :
    dispatchOk tr = false ∧ Effect.hsetWebhookSent ∉ tr ∧
    (∀ hsh b, Effect.dispatch hsh b ∉ tr) ∧ (∀ hsh, Effect.markSeen hsh ∉ tr) ∧
    Effect.deleteJob ∉ tr ∧ (∀ hsh, Effect.buildPayload hsh ∉ tr) ∧
    (∀ k e2, Effect.statusWrite k e2 ∉ tr) := by
  refine ⟨?_, ?_, ?_, ?_, ?_, ?_, ?_⟩
  · rw [← Bool.not_eq_true, dispatchOk_iff]
    rintro ⟨hsh, hmem⟩
    rcases h _ hmem with ⟨p, hp⟩ | ⟨x, hx⟩ | ⟨m, hm⟩ <;> simp_all
  · intro hmem
    rcases h _ hmem with ⟨p, hp⟩ | ⟨x, hx⟩ | ⟨m, hm⟩ <;> simp_all
  · intro hsh b hmem
    rcases h _ hmem with ⟨p, hp⟩ | ⟨x, hx⟩ | ⟨m, hm⟩ <;> simp_all
  · intro hsh hmem
    rcases h _ hmem with ⟨p, hp⟩ | ⟨x, hx⟩ | ⟨m, hm⟩ <;> simp_all
  · intro hmem
    rcases h _ hmem with ⟨p, hp⟩ | ⟨x, hx⟩ | ⟨m, hm⟩ <;> simp_all
  · intro hsh hmem
    rcases h _ hmem with ⟨p, hp⟩ | ⟨x, hx⟩ | ⟨m, hm⟩ <;> simp_all
  · intro k e2 hmem
    rcases h _ hmem with ⟨p, hp⟩ | ⟨x, hx⟩ | ⟨m, hm⟩ <;> simp_all

end NanoRpcProxy

namespace NanoRpcProxy

lemma hc_dispatchOk (cfg : Config) (inp : PassInput) (ctx : ConfirmedCtx) :
    dispatchOk (handleConfirmed cfg inp ctx).2 = true → (handleConfirmed cfg inp ctx).1.job = none := by
  unfold handleConfirmed
  split_ifs <;>
    simp [hcSeenLeaf, hcSentLeaf, hcWindowLeaf, hcHeldLeaf, hcOkLeaf, hcFailLeaf,
          hcFailNoRecordLeaf, hcPrefixTrace, dispatchOk]

lemma hc_no_dyn (cfg : Config) (inp : PassInput) (ctx : ConfirmedCtx) :
    dynApplied (handleConfirmed cfg inp ctx).2 = false := by
  unfold handleConfirmed
  split_ifs <;>
    simp [hcSeenLeaf, hcSentLeaf, hcWindowLeaf, hcHeldLeaf, hcOkLeaf, hcFailLeaf,
          hcFailNoRecordLeaf, hcPrefixTrace, dynApplied]

lemma hc_job_preserved (cfg : Config) (inp : PassInput) (ctx : ConfirmedCtx) :
    (handleConfirmed cfg inp ctx).1.job = none ∨
    (∃ f : Job → Job, (handleConfirmed cfg inp ctx).1.job = ctx.midState.job.map f ∧
      ∀ j, (f j).dynamicMinConfApplied = j.dynamicMinConfApplied ∧ (f j).minConf = j.minConf) := by
  unfold handleConfirmed
  split_ifs <;>
    first
      | (left; rfl)
      | (right; exact ⟨_, rfl, fun j => ⟨rfl, rfl⟩⟩)
      | (right; exact ⟨fun j => j, by cases hmid : ctx.midState.job <;> simp [hcHeldLeaf, hcFailNoRecordLeaf, hmid], fun j => ⟨rfl, rfl⟩⟩)

lemma hc_no_dispatch_of_sent (cfg : Config) (inp : PassInput) (ctx : ConfirmedCtx)
    (hs : ctx.job.webhookSent = true) (hsh : String) (b : Bool) :
    Effect.dispatch hsh b ∉ (handleConfirmed cfg inp ctx).2 := by
  unfold handleConfirmed
  rw [if_pos hs]
  by_cases h1 : ctx.midState.seen.contains ctx.confirmed.hash
  · rw [if_pos h1]; simp [hcSeenLeaf]
  · rw [if_neg h1]; simp [hcSentLeaf]

lemma hc_sent_eq (cfg : Config) (inp : PassInput) (ctx : ConfirmedCtx)
    (h1 : ctx.midState.seen.contains ctx.confirmed.hash = false)
    (hs : ctx.job.webhookSent = true) :
    handleConfirmed cfg inp ctx = hcSentLeaf ctx := by
  unfold handleConfirmed
  rw [if_neg (bool_ne_true h1), if_pos hs]

lemma hc_seen_eq (cfg : Config) (inp : PassInput) (ctx : ConfirmedCtx)
    (h1 : ctx.midState.seen.contains ctx.confirmed.hash = true) :
    handleConfirmed cfg inp ctx = hcSeenLeaf ctx := by
  unfold handleConfirmed
  rw [if_pos h1]

lemma hc_hsetWS (cfg : Config) (inp : PassInput) (ctx : ConfirmedCtx) :
    Effect.hsetWebhookSent ∈ (handleConfirmed cfg inp ctx).2 →
    Effect.dispatch ctx.confirmed.hash true ∈ (handleConfirmed cfg inp ctx).2 := by
  unfold handleConfirmed
  split_ifs <;>
    simp [hcSeenLeaf, hcSentLeaf, hcWindowLeaf, hcHeldLeaf, hcOkLeaf, hcFailLeaf,
          hcFailNoRecordLeaf, hcPrefixTrace]

lemma hc_dispatch_true_eq (cfg : Config) (inp : PassInput) (ctx : ConfirmedCtx) (hsh : String)
    (h : Effect.dispatch hsh true ∈ (handleConfirmed cfg inp ctx).2) :
    hsh = ctx.confirmed.hash ∧ handleConfirmed cfg inp ctx = hcOkLeaf ctx := by
  unfold handleConfirmed at h ⊢
  split_ifs at h ⊢ <;>
    simp_all [hcSeenLeaf, hcSentLeaf, hcWindowLeaf, hcHeldLeaf, hcOkLeaf, hcFailLeaf,
              hcFailNoRecordLeaf, hcPrefixTrace]

lemma hc_starts (cfg : Config) (inp : PassInput) (ctx : ConfirmedCtx) :
    ∃ rest, (handleConfirmed cfg inp ctx).2 = .seenCheck ctx.confirmed.hash :: rest := by
  unfold handleConfirmed
  split_ifs <;>
    exact ⟨_, rfl⟩

lemma hc_window_eq (cfg : Config) (inp : PassInput) (ctx : ConfirmedCtx)
    (h1 : ctx.midState.seen.contains ctx.confirmed.hash = false)
    (hs : ctx.job.webhookSent = false)
    (hw : windowExceeded cfg ctx.job inp.now) :
    handleConfirmed cfg inp ctx = hcWindowLeaf ctx := by
  unfold handleConfirmed
  rw [if_neg (bool_ne_true h1), if_neg (bool_ne_true hs), if_pos hw]

lemma hc_held_eq (cfg : Config) (inp : PassInput) (ctx : ConfirmedCtx)
    (h1 : ctx.midState.seen.contains ctx.confirmed.hash = false)
    (hs : ctx.job.webhookSent = false)
    (hw : ¬ windowExceeded cfg ctx.job inp.now)
    (hm : maxAttemptsReached cfg ctx.job) :
    handleConfirmed cfg inp ctx = hcHeldLeaf ctx := by
  unfold handleConfirmed
  rw [if_neg (bool_ne_true h1), if_neg (bool_ne_true hs), if_neg hw, if_pos hm]

end NanoRpcProxy

namespace NanoRpcProxy

lemma selectConfirmed_inr {st : WatcherState} {tr : List Effect} {job : Job} {mc : Nat}
    {deposits : List Observation} {best : Observation} {ctx : ConfirmedCtx}
    (h : selectConfirmed st tr job mc deposits best = .inr ctx) :
    ctx.job = job ∧ ctx.minConf = mc ∧ ctx.midState = st ∧ ctx.trace = tr ∧
    confirmedObservation deposits mc = some ctx.confirmed ∧ ctx.confirmed.hash ≠ "" := by
  unfold selectConfirmed at h
  rcases hc : confirmedObservation deposits mc with _ | c <;> simp only [hc] at h
  · cases h
  · by_cases hh : c.hash = ""
    · rw [if_pos hh] at h; cases h
    · rw [if_neg hh] at h
      cases h
      exact ⟨rfl, rfl, rfl, rfl, rfl, hh⟩

lemma selectConfirmed_inl {st : WatcherState} {tr : List Effect} {job : Job} {mc : Nat}
    {deposits : List Observation} {best : Observation} {r : WatcherState × List Effect}
    (h : selectConfirmed st tr job mc deposits best = .inl r) :
    r = confirmingBelowThreshold st tr job mc best := by
  unfold selectConfirmed at h
  rcases hc : confirmedObservation deposits mc with _ | c <;> simp only [hc] at h
  · injection h with h2
    exact h2.symm
  · by_cases hh : c.hash = ""
    · rw [if_pos hh] at h
      injection h with h2
      exact h2.symm
    · rw [if_neg hh] at h; cases h

lemma cbt_spec (st : WatcherState) (tr : List Effect) (job : Job) (mc : Nat) (best : Observation) :
    (confirmingBelowThreshold st tr job mc best).1.job = st.job ∧
    (confirmingBelowThreshold st tr job mc best).1.seen = st.seen ∧
    ((confirmingBelowThreshold st tr job mc best).2 = tr ∨
     (confirmingBelowThreshold st tr job mc best).2 = tr ++ [.statusWrite .CONFIRMING none]) := by
  unfold confirmingBelowThreshold
  split_ifs
  · exact ⟨rfl, rfl, Or.inl rfl⟩
  · exact ⟨rfl, rfl, Or.inr rfl⟩

lemma backfillStage_seen (st : WatcherState) (job : Job) :
    (backfillStage st job).1.seen = st.seen := by
  unfold backfillStage; split_ifs <;> rfl

lemma backfillStage_status (st : WatcherState) (job : Job) :
    (backfillStage st job).1.status = st.status := by
  unfold backfillStage; split_ifs <;> rfl

lemma backfillStage_trace (st : WatcherState) (job : Job) :
    PreTraceOnly (backfillStage st job).2 := by
  unfold backfillStage
  split_ifs
  · intro e he
    simp only [List.mem_singleton] at he
    exact Or.inl ⟨_, he⟩
  · intro e he
    simp at he

lemma backfillStage_dyn (st : WatcherState) (job : Job) :
    dynApplied (backfillStage st job).2 = false := by
  unfold backfillStage; split_ifs <;> rfl

lemma backfillStage_job (st : WatcherState) (job : Job) (hj : st.job = some job) :
    ∃ j, (backfillStage st job).1.job = some j ∧
      j.dynamicMinConfApplied = job.dynamicMinConfApplied ∧ j.minConf = job.minConf := by
  unfold backfillStage
  split_ifs with h
  · exact ⟨_, rfl, rfl, rfl⟩
  · exact ⟨job, hj, rfl, rfl⟩

lemma ledgerTrace_trace (best : Observation) : PreTraceOnly (ledgerTrace best) := by
  unfold ledgerTrace
  split_ifs
  · intro e he; simp at he
  · intro e he
    simp only [List.mem_singleton] at he
    exact Or.inr (Or.inl ⟨_, he⟩)

lemma ledgerTrace_dyn (best : Observation) : dynApplied (ledgerTrace best) = false := by
  unfold ledgerTrace; split_ifs <;> rfl

lemma dynamicStage_seen (cfg : Config) (st1 : WatcherState) (job : Job) (m0 : Nat)
    (best : Observation) : (dynamicStage cfg st1 job m0 best).1.seen = st1.seen := by
  unfold dynamicStage
  rcases hdyn : computeDynamicMinConfirmations (.bigint (best.amountAtomic : Int)) (cfg.decimals : Int) with _ | dyn <;>
    simp only [hdyn]
  split_ifs <;> rfl

lemma dynamicStage_status (cfg : Config) (st1 : WatcherState) (job : Job) (m0 : Nat)
    (best : Observation) : (dynamicStage cfg st1 job m0 best).1.status = st1.status := by
  unfold dynamicStage
  rcases hdyn : computeDynamicMinConfirmations (.bigint (best.amountAtomic : Int)) (cfg.decimals : Int) with _ | dyn <;>
    simp only [hdyn]
  split_ifs <;> rfl

lemma dynamicStage_trace (cfg : Config) (st1 : WatcherState) (job : Job) (m0 : Nat)
    (best : Observation) : PreTraceOnly (dynamicStage cfg st1 job m0 best).2.1 := by
  unfold dynamicStage
  rcases hdyn : computeDynamicMinConfirmations (.bigint (best.amountAtomic : Int)) (cfg.decimals : Int) with _ | dyn <;>
    simp only [hdyn]
  · intro e he; simp at he
  · split_ifs
    · intro e he
      simp only [List.mem_singleton] at he
      exact Or.inr (Or.inr ⟨_, he⟩)
    · intro e he; simp at he

lemma dynamicStage_of_applied (cfg : Config) (st1 : WatcherState) (job : Job) (m0 : Nat)
    (best : Observation) (hf : job.dynamicMinConfApplied = true) :
    dynamicStage cfg st1 job m0 best = (st1, [], m0) := by
  unfold dynamicStage
  rcases hdyn : computeDynamicMinConfirmations (.bigint (best.amountAtomic : Int)) (cfg.decimals : Int) with _ | dyn <;>
    simp only [hdyn]
  split_ifs with hcond
  · exact absurd (hcond.1.symm.trans hf) (by simp)
  · rfl

lemma dynamicStage_latch (cfg : Config) (st1 : WatcherState) (job : Job) (m0 : Nat)
    (best : Observation) (hd : dynApplied (dynamicStage cfg st1 job m0 best).2.1 = true)
    (j : Job) (hj : st1.job = some j) :
    ∃ j2, (dynamicStage cfg st1 job m0 best).1.job = some j2 ∧ j2.dynamicMinConfApplied = true := by
  unfold dynamicStage at hd ⊢
  rcases hdyn : computeDynamicMinConfirmations (.bigint (best.amountAtomic : Int)) (cfg.decimals : Int) with _ | dyn <;>
    simp only [hdyn] at hd ⊢
  · simp [dynApplied] at hd
  · split_ifs at hd ⊢ with hcond
    · exact ⟨_, by rw [hj]; rfl, rfl⟩
    · simp [dynApplied] at hd

lemma dynamicStage_some (cfg : Config) (st1 : WatcherState) (job : Job) (m0 : Nat)
    (best : Observation) (j : Job) (hj : st1.job = some j) :
    ∃ j2, (dynamicStage cfg st1 job m0 best).1.job = some j2 := by
  unfold dynamicStage
  rcases hdyn : computeDynamicMinConfirmations (.bigint (best.amountAtomic : Int)) (cfg.decimals : Int) with _ | dyn <;>
    simp only [hdyn]
  · exact ⟨j, hj⟩
  · split_ifs with hcond
    · exact ⟨_, by rw [hj]; rfl⟩
    · exact ⟨j, hj⟩

end NanoRpcProxy

namespace NanoRpcProxy

lemma pre_inr (cfg : Config) (st : WatcherState) (inp : PassInput) (ctx : ConfirmedCtx)
    (h : handleJobPre cfg st inp = .inr ctx) :
    st.job = some ctx.job ∧
    ctx.midState.seen = st.seen ∧
    PreTraceOnly ctx.trace ∧
    ctx.confirmed.hash ≠ "" ∧
    confirmedObservation inp.deposits ctx.minConf = some ctx.confirmed ∧
    (∃ j, ctx.midState.job = some j) ∧
    (ctx.job.dynamicMinConfApplied = true → dynApplied ctx.trace = false ∧
      ∃ j, ctx.midState.job = some j ∧ j.dynamicMinConfApplied = true ∧ j.minConf = ctx.job.minConf) ∧
    (dynApplied ctx.trace = true → ∃ j, ctx.midState.job = some j ∧ j.dynamicMinConfApplied = true) := by
  unfold handleJobPre at h
  rcases hjob : st.job with _ | job <;> simp only [hjob] at h
  · cases h
  · by_cases hval : job.address = "" ∨ job.txId = ""
    · rw [if_pos hval] at h; cases h
    · rw [if_neg hval] at h
      rcases hbest : bestObservation inp.deposits with _ | best <;> simp only [hbest] at h
      · cases h
      · obtain ⟨hcj, hmc, hmid, htr, hco, hhash⟩ := selectConfirmed_inr h
        subst hcj
        obtain ⟨jb, hjb, hjbflag, hjbmin⟩ := backfillStage_job st ctx.job hjob
        refine ⟨rfl, ?_, ?_, hhash, hmc ▸ hco, ?_, ?_, ?_⟩
        · rw [hmid, dynamicStage_seen, backfillStage_seen]
        · rw [htr]
          exact preTraceOnly_append (preTraceOnly_append (backfillStage_trace st ctx.job) (ledgerTrace_trace best)) (dynamicStage_trace cfg _ ctx.job _ best)
        · obtain ⟨j2, hj2⟩ := dynamicStage_some cfg _ ctx.job (ctx.job.minConf.getD cfg.minConfirmations) best jb hjb
          exact ⟨j2, hmid ▸ hj2⟩
        · intro hflag
          have hds := dynamicStage_of_applied cfg (backfillStage st ctx.job).1 ctx.job (ctx.job.minConf.getD cfg.minConfirmations) best hflag
          constructor
          · rw [htr, dynApplied_append, dynApplied_append, backfillStage_dyn, ledgerTrace_dyn, hds]
            rfl
          · refine ⟨jb, ?_, hjbflag.trans hflag, hjbmin⟩
            rw [hmid, hds]
            exact hjb
        · intro hdyn
          rw [htr, dynApplied_append, dynApplied_append, backfillStage_dyn, ledgerTrace_dyn] at hdyn
          simp only [Bool.false_or] at hdyn
          obtain ⟨j2, hj2, hj2f⟩ := dynamicStage_latch cfg _ ctx.job (ctx.job.minConf.getD cfg.minConfirmations) best hdyn jb hjb
          exact ⟨j2, hmid ▸ hj2, hj2f⟩

end NanoRpcProxy

namespace NanoRpcProxy

lemma pre_inl (cfg : Config) (st : WatcherState) (inp : PassInput) (r : WatcherState × List Effect)
    (h : handleJobPre cfg st inp = .inl r) :
    dispatchOk r.2 = false ∧
    Effect.hsetWebhookSent ∉ r.2 ∧
    (∀ hsh b, Effect.dispatch hsh b ∉ r.2) ∧
    (∀ hsh, Effect.buildPayload hsh ∉ r.2) ∧
    (dynApplied r.2 = true → ∃ j2, r.1.job = some j2 ∧ j2.dynamicMinConfApplied = true) ∧
    (∀ j, st.job = some j → j.dynamicMinConfApplied = true →
      dynApplied r.2 = false ∧
      (r.1.job = none ∨ ∃ j2, r.1.job = some j2 ∧ j2.dynamicMinConfApplied = true ∧ j2.minConf = j.minConf)) := by
  unfold handleJobPre at h
  rcases hjob : st.job with _ | job <;> simp only [hjob] at h
  · cases h
    refine ⟨rfl, by simp, by simp, by simp, by simp [dynApplied], ?_⟩
    intro j hj
    cases hj
  · by_cases hval : job.address = "" ∨ job.txId = ""
    · rw [if_pos hval] at h
      cases h
      refine ⟨rfl, by simp, by simp, by simp, by simp [dynApplied], ?_⟩
      intro j hj hf
      exact ⟨rfl, Or.inl rfl⟩
    · rw [if_neg hval] at h
      rcases hbest : bestObservation inp.deposits with _ | best <;> simp only [hbest] at h
      · cases h
        have hb := backfillStage_trace st job
        obtain ⟨hd1, hd2, hd3, _, _, hd6, _⟩ := preTraceOnly_facts hb
        refine ⟨hd1, hd2, hd3, hd6, ?_, ?_⟩
        · intro hdyn
          rw [backfillStage_dyn] at hdyn
          cases hdyn
        · intro j hj hf
          have hj2 : j = job := (Option.some.inj hj).symm
          subst hj2
          obtain ⟨jb, hjb, hjbf, hjbm⟩ := backfillStage_job st j hjob
          exact ⟨backfillStage_dyn st j, Or.inr ⟨jb, hjb, hjbf.trans hf, hjbm⟩⟩
      · have hr := selectConfirmed_inl h
        set B := backfillStage st job with hB
        set D := dynamicStage cfg B.1 job (job.minConf.getD cfg.minConfirmations) best with hD
        set TR := B.2 ++ ledgerTrace best ++ D.2.1 with hTR
        subst hr
        obtain ⟨hcjob, hcseen, hctr⟩ := cbt_spec D.1 TR job D.2.2 best
        have htrPre : PreTraceOnly TR := by
          rw [hTR, hB, hD]
          exact preTraceOnly_append (preTraceOnly_append (backfillStage_trace st job) (ledgerTrace_trace best))
            (dynamicStage_trace cfg _ job _ best)
        obtain ⟨hp1, hp2, hp3, _, _, hp6, hp7⟩ := preTraceOnly_facts htrPre
        obtain ⟨jb, hjb, hjbf, hjbm⟩ := backfillStage_job st job hjob
        have hTRdyn : dynApplied TR = dynApplied D.2.1 := by
          rw [hTR, dynApplied_append, dynApplied_append, hB, backfillStage_dyn, ledgerTrace_dyn]
          rfl
        have hdynEq : dynApplied (confirmingBelowThreshold D.1 TR job D.2.2 best).2 = true →
            dynApplied D.2.1 = true := by
          intro hdw
          rcases hctr with hctr | hctr <;> rw [hctr] at hdw
          · rw [hTRdyn] at hdw
            exact hdw
          · rw [dynApplied_append, hTRdyn] at hdw
            simpa [dynApplied] using hdw
        constructor
        · rcases hctr with hctr | hctr <;> rw [hctr]
          · exact hp1
          · rw [dispatchOk_append, hp1]
            rfl
        constructor
        · rcases hctr with hctr | hctr <;> rw [hctr]
          · exact hp2
          · intro hmem
            rcases List.mem_append.mp hmem with hm | hm
            · exact hp2 hm
            · simp at hm
        constructor
        · intro hsh b
          rcases hctr with hctr | hctr <;> rw [hctr]
          · exact hp3 hsh b
          · intro hmem
            rcases List.mem_append.mp hmem with hm | hm
            · exact hp3 hsh b hm
            · simp at hm
        constructor
        · intro hsh
          rcases hctr with hctr | hctr <;> rw [hctr]
          · exact hp6 hsh
          · intro hmem
            rcases List.mem_append.mp hmem with hm | hm
            · exact hp6 hsh hm
            · simp at hm
        constructor
        · intro hdyn
          have hdyn2 := hdynEq hdyn
          rw [hD] at hdyn2
          obtain ⟨j2, hj2, hj2f⟩ := dynamicStage_latch cfg B.1 job (job.minConf.getD cfg.minConfirmations) best hdyn2 jb hjb
          rw [hcjob, hD]
          exact ⟨j2, hj2, hj2f⟩
        · intro j hj hf
          have hj2 : j = job := (Option.some.inj hj).symm
          subst hj2
          have hds := dynamicStage_of_applied cfg B.1 j (j.minConf.getD cfg.minConfirmations) best hf
          rw [← hD] at hds
          constructor
          · rcases hctr with hctr | hctr <;> rw [hctr]
            · rw [hTRdyn, hds]
              rfl
            · rw [dynApplied_append, hTRdyn, hds]
              rfl
          · rw [hcjob, hds]
            exact Or.inr ⟨jb, hjb, hjbf.trans hf, hjbm⟩

end NanoRpcProxy

namespace NanoRpcProxy

lemma hc_sent_payload (cfg : Config) (inp : PassInput) (ctx : ConfirmedCtx)
    (hs : ctx.job.webhookSent = true) (hsh : String)
    (hmem : Effect.buildPayload hsh ∈ (handleConfirmed cfg inp ctx).2) :
    Effect.markSeen hsh ∈ (handleConfirmed cfg inp ctx).2 ∧
    Effect.deleteJob ∈ (handleConfirmed cfg inp ctx).2 := by
  by_cases h1 : ctx.midState.seen.contains ctx.confirmed.hash
  · rw [hc_seen_eq cfg inp ctx h1] at hmem
    simp [hcSeenLeaf] at hmem
  · have h1f : ctx.midState.seen.contains ctx.confirmed.hash = false := by
      revert h1
      cases ctx.midState.seen.contains ctx.confirmed.hash <;> simp
    rw [hc_sent_eq cfg inp ctx h1f hs] at hmem ⊢
    simp only [hcSentLeaf, List.mem_cons, List.mem_singleton] at hmem
    rcases hmem with h | h | h | h <;> simp_all [hcSentLeaf]

lemma handleJob_inl (cfg : Config) (st : WatcherState) (inp : PassInput)
    (r : WatcherState × List Effect) (h : handleJobPre cfg st inp = .inl r) :
    handleJob cfg st inp = r := by
  unfold handleJob
  rw [h]

lemma handleJob_inr (cfg : Config) (st : WatcherState) (inp : PassInput)
    (ctx : ConfirmedCtx) (h : handleJobPre cfg st inp = .inr ctx) :
    handleJob cfg st inp =
      ((handleConfirmed cfg inp ctx).1, ctx.trace ++ (handleConfirmed cfg inp ctx).2) := by
  unfold handleJob
  rw [h]

lemma pre_none (cfg : Config) (st : WatcherState) (inp : PassInput) (h : st.job = none) :
    handleJobPre cfg st inp = .inl ({ st with job := none }, [.deleteJob]) := by
  unfold handleJobPre
  rw [h]

lemma handleJob_none (cfg : Config) (st : WatcherState) (inp : PassInput) (h : st.job = none) :
    handleJob cfg st inp = ({ st with job := none }, [.deleteJob]) :=
  handleJob_inl cfg st inp _ (pre_none cfg st inp h)

lemma handleJob_dispatchOk (cfg : Config) (st : WatcherState) (inp : PassInput)
    (h : dispatchOk (handleJob cfg st inp).2 = true) :
    (handleJob cfg st inp).1.job = none := by
  rcases hpre : handleJobPre cfg st inp with r | ctx
  · rw [handleJob_inl cfg st inp r hpre] at h ⊢
    rw [(pre_inl cfg st inp r hpre).1] at h
    cases h
  · rw [handleJob_inr cfg st inp ctx hpre] at h ⊢
    rw [dispatchOk_append, (preTraceOnly_facts (pre_inr cfg st inp ctx hpre).2.2.1).1] at h
    simp only [Bool.false_or] at h
    exact hc_dispatchOk cfg inp ctx h

lemma handleJob_hsetWS (cfg : Config) (st : WatcherState) (inp : PassInput)
    (h : Effect.hsetWebhookSent ∈ (handleJob cfg st inp).2) :
    ∃ hsh, Effect.dispatch hsh true ∈ (handleJob cfg st inp).2 := by
  rcases hpre : handleJobPre cfg st inp with r | ctx
  · rw [handleJob_inl cfg st inp r hpre] at h
    exact absurd h (pre_inl cfg st inp r hpre).2.1
  · rw [handleJob_inr cfg st inp ctx hpre] at h ⊢
    rcases List.mem_append.mp h with hm | hm
    · exact absurd hm (preTraceOnly_facts (pre_inr cfg st inp ctx hpre).2.2.1).2.1
    · exact ⟨ctx.confirmed.hash, List.mem_append_right _ (hc_hsetWS cfg inp ctx hm)⟩

lemma handleJob_sent_skip (cfg : Config) (st : WatcherState) (inp : PassInput) (j : Job)
    (hj : st.job = some j) (hs : j.webhookSent = true) :
    (∀ hsh b, Effect.dispatch hsh b ∉ (handleJob cfg st inp).2) ∧
    (∀ hsh, Effect.buildPayload hsh ∈ (handleJob cfg st inp).2 →
      Effect.markSeen hsh ∈ (handleJob cfg st inp).2 ∧
      Effect.deleteJob ∈ (handleJob cfg st inp).2) := by
  rcases hpre : handleJobPre cfg st inp with r | ctx
  · rw [handleJob_inl cfg st inp r hpre]
    obtain ⟨_, _, hnd, hnb, _, _⟩ := pre_inl cfg st inp r hpre
    exact ⟨hnd, fun hsh hmem => absurd hmem (hnb hsh)⟩
  · rw [handleJob_inr cfg st inp ctx hpre]
    obtain ⟨hjob, _, htrace, _⟩ := pre_inr cfg st inp ctx hpre
    have hcj : ctx.job = j := by
      rw [hj] at hjob
      exact (Option.some.inj hjob).symm
    have hsent : ctx.job.webhookSent = true := by rw [hcj]; exact hs
    obtain ⟨_, _, hnd, _, _, hnb, _⟩ := preTraceOnly_facts htrace
    constructor
    · intro hsh b hmem
      rcases List.mem_append.mp hmem with hm | hm
      · exact hnd hsh b hm
      · exact hc_no_dispatch_of_sent cfg inp ctx hsent hsh b hm
    · intro hsh hmem
      rcases List.mem_append.mp hmem with hm | hm
      · exact absurd hm (hnb hsh)
      · obtain ⟨hm1, hm2⟩ := hc_sent_payload cfg inp ctx hsent hsh hm
        exact ⟨List.mem_append_right _ hm1, List.mem_append_right _ hm2⟩

end NanoRpcProxy

namespace NanoRpcProxy

lemma handleJob_dyn_latch (cfg : Config) (st : WatcherState) (inp : PassInput)
    (h : dynApplied (handleJob cfg st inp).2 = true) :
    (handleJob cfg st inp).1.job = none ∨
    ∃ j2, (handleJob cfg st inp).1.job = some j2 ∧ j2.dynamicMinConfApplied = true := by
  rcases hpre : handleJobPre cfg st inp with r | ctx
  · rw [handleJob_inl cfg st inp r hpre] at h ⊢
    obtain ⟨j2, hj2, hj2f⟩ := (pre_inl cfg st inp r hpre).2.2.2.2.1 h
    exact Or.inr ⟨j2, hj2, hj2f⟩
  · rw [handleJob_inr cfg st inp ctx hpre] at h ⊢
    rw [dynApplied_append, hc_no_dyn] at h
    simp only [Bool.or_false] at h
    obtain ⟨jm, hjm, hjmf⟩ := (pre_inr cfg st inp ctx hpre).2.2.2.2.2.2.2 h
    rcases hc_job_preserved cfg inp ctx with hnone | ⟨f, hmap, hpres⟩
    · exact Or.inl hnone
    · right
      refine ⟨f jm, ?_, ?_⟩
      · rw [hmap, hjm]
        rfl
      · rw [(hpres jm).1]
        exact hjmf

lemma handleJob_flag (cfg : Config) (st : WatcherState) (inp : PassInput) (j : Job)
    (hj : st.job = some j) (hf : j.dynamicMinConfApplied = true) :
    dynApplied (handleJob cfg st inp).2 = false ∧
    ((handleJob cfg st inp).1.job = none ∨
     ∃ j2, (handleJob cfg st inp).1.job = some j2 ∧ j2.dynamicMinConfApplied = true ∧
       j2.minConf = j.minConf) := by
  rcases hpre : handleJobPre cfg st inp with r | ctx
  · rw [handleJob_inl cfg st inp r hpre]
    exact (pre_inl cfg st inp r hpre).2.2.2.2.2 j hj hf
  · rw [handleJob_inr cfg st inp ctx hpre]
    obtain ⟨hjob, _, _, _, _, _, hflagclause, _⟩ := pre_inr cfg st inp ctx hpre
    have hcj : ctx.job = j := by
      rw [hj] at hjob
      exact (Option.some.inj hjob).symm
    obtain ⟨hdynpre, jm, hjm, hjmf, hjmm⟩ := hflagclause (by rw [hcj]; exact hf)
    constructor
    · rw [dynApplied_append, hdynpre, hc_no_dyn]
      rfl
    · rcases hc_job_preserved cfg inp ctx with hnone | ⟨f, hmap, hpres⟩
      · exact Or.inl hnone
      · right
        refine ⟨f jm, ?_, ?_, ?_⟩
        · rw [hmap, hjm]
          rfl
        · rw [(hpres jm).1]
          exact hjmf
        · rw [(hpres jm).2, hjmm, hcj]

lemma runPasses_nil (cfg : Config) (st : WatcherState) : runPasses cfg st [] = (st, []) := rfl

lemma runPasses_cons (cfg : Config) (st : WatcherState) (inp : PassInput) (rest : List PassInput) :
    runPasses cfg st (inp :: rest) =
      ((runPasses cfg (handleJob cfg st inp).1 rest).1,
       (handleJob cfg st inp).2 :: (runPasses cfg (handleJob cfg st inp).1 rest).2) := rfl

lemma runPasses_job_none (cfg : Config) :
    ∀ (inputs : List PassInput) (st : WatcherState), st.job = none →
      (runPasses cfg st inputs).1.job = none ∧
      ∀ tr ∈ (runPasses cfg st inputs).2, tr = [Effect.deleteJob] := by
  intro inputs
  induction inputs with
  | nil =>
    intro st h
    exact ⟨h, by simp [runPasses_nil]⟩
  | cons inp rest ih =>
    intro st h
    rw [runPasses_cons]
    have hh := handleJob_none cfg st inp h
    have hpost : (handleJob cfg st inp).1.job = none := by rw [hh]
    obtain ⟨ih1, ih2⟩ := ih (handleJob cfg st inp).1 hpost
    refine ⟨ih1, ?_⟩
    intro tr htr
    rcases List.mem_cons.mp htr with htr | htr
    · rw [htr, hh]
    · exact ih2 tr htr

lemma runPasses_count_dispatch (cfg : Config) :
    ∀ (inputs : List PassInput) (st : WatcherState),
      ((runPasses cfg st inputs).2.countP (fun tr => dispatchOk tr)) ≤ 1 := by
  intro inputs
  induction inputs with
  | nil => intro st; simp [runPasses_nil]
  | cons inp rest ih =>
    intro st
    rw [runPasses_cons]
    simp only [List.countP_cons]
    by_cases hd : dispatchOk (handleJob cfg st inp).2 = true
    · have hnone := handleJob_dispatchOk cfg st inp hd
      obtain ⟨_, hall⟩ := runPasses_job_none cfg rest (handleJob cfg st inp).1 hnone
      have hz : ((runPasses cfg (handleJob cfg st inp).1 rest).2.countP (fun tr => dispatchOk tr)) = 0 := by
        rw [List.countP_eq_zero]
        intro tr htr
        rw [hall tr htr]
        simp [dispatchOk]
      rw [hz]
      simp [hd]
    · have hz : (if (fun tr => dispatchOk tr) (handleJob cfg st inp).2 then 1 else 0) = 0 := by
        simp only [if_neg hd]
      rw [hz]
      simpa using ih (handleJob cfg st inp).1

lemma runPasses_latched (cfg : Config) :
    ∀ (inputs : List PassInput) (st : WatcherState),
      (st.job = none ∨ ∃ j, st.job = some j ∧ j.dynamicMinConfApplied = true) →
      ((runPasses cfg st inputs).2.countP (fun tr => dynApplied tr)) = 0 := by
  intro inputs
  induction inputs with
  | nil => intro st _; simp [runPasses_nil]
  | cons inp rest ih =>
    intro st hlat
    rw [runPasses_cons]
    simp only [List.countP_cons]
    rcases hlat with hnone | ⟨j, hj, hf⟩
    · have hh := handleJob_none cfg st inp hnone
      have hdz : dynApplied (handleJob cfg st inp).2 = false := by rw [hh]; rfl
      have hpost : (handleJob cfg st inp).1.job = none := by rw [hh]
      rw [ih (handleJob cfg st inp).1 (Or.inl hpost)]
      simp [hdz]
    · obtain ⟨hdz, hpost⟩ := handleJob_flag cfg st inp j hj hf
      have hrest : ((runPasses cfg (handleJob cfg st inp).1 rest).2.countP (fun tr => dynApplied tr)) = 0 := by
        apply ih
        rcases hpost with hnone | ⟨j2, hj2, hj2f, _⟩
        · exact Or.inl hnone
        · exact Or.inr ⟨j2, hj2, hj2f⟩
      rw [hrest]
      simp [hdz]

lemma runPasses_count_dyn (cfg : Config) :
    ∀ (inputs : List PassInput) (st : WatcherState),
      ((runPasses cfg st inputs).2.countP (fun tr => dynApplied tr)) ≤ 1 := by
  intro inputs
  induction inputs with
  | nil => intro st; simp [runPasses_nil]
  | cons inp rest ih =>
    intro st
    rw [runPasses_cons]
    simp only [List.countP_cons]
    by_cases hd : dynApplied (handleJob cfg st inp).2 = true
    · have hlat := handleJob_dyn_latch cfg st inp hd
      have hz := runPasses_latched cfg rest (handleJob cfg st inp).1 hlat
      rw [hz]
      simp [hd]
    · have hz : (if (fun tr => dynApplied tr) (handleJob cfg st inp).2 then 1 else 0) = 0 := by
        simp only [if_neg hd]
      rw [hz]
      simpa using ih (handleJob cfg st inp).1

end NanoRpcProxy

namespace NanoRpcProxy

/-! Concrete fixtures used to witness the theorems below. -/

def cfgDefault : Config := ⟨1, 12, 0, 7200000, 1000, 2, 1200000, false, 14400, 604800⟩

def cfgMaxAtt : Config := { cfgDefault with webhookMaxAttempts := 2 }

def jobFresh : Job := ⟨"A", "pid1", "pid1", some 1, true, false, 0, 0, 0, 0, ""⟩

def jobSent : Job := { jobFresh with webhookSent := true }

def jobRetry : Job :=
  { jobFresh with webhookAttempts := 3, webhookFirstAttemptAt := 1000, webhookLastError := "err" }

def jobAtt : Job := { jobFresh with webhookAttempts := 2 }

def obsH : Observation := ⟨"H", 10000000000000, 3⟩

def stFresh : WatcherState := ⟨some jobFresh, none, []⟩

def stSent : WatcherState := ⟨some jobSent, none, []⟩

def stSeen : WatcherState := ⟨some jobFresh, none, ["H"]⟩

def stRetry : WatcherState := ⟨some jobRetry, none, []⟩

def stAtt : WatcherState := ⟨some jobAtt, none, []⟩

def inpOk : PassInput := ⟨1000000, [obsH], true, "", fun n => n⟩

def inpFail (t : Nat) : PassInput := ⟨t, [obsH], false, "boom", fun n => n⟩

def ctxSeen : ConfirmedCtx := ⟨jobFresh, 1, obsH, stSeen, [.ledgerFirstSeen "H"]⟩

def ctxRetry : ConfirmedCtx := ⟨jobRetry, 1, obsH, stRetry, [.ledgerFirstSeen "H"]⟩

def ctxAtt : ConfirmedCtx := ⟨jobAtt, 1, obsH, stAtt, [.ledgerFirstSeen "H"]⟩

lemma truncateText_of_le {s : String} {n : Nat} (h : s.length ≤ n) : truncateText s n = s := by
  unfold truncateText
  rw [if_pos h]

/-- C1: over every sequence of polling passes at most one webhook dispatch for
the Job receives a 2xx response; `webhookSent` is set only in a pass whose
dispatch got a 2xx; and a pass that loads a Job with `webhookSent` already
true never dispatches — when it reaches the payload it only marks Seen and
deletes the Job. -/
theorem webhook_dispatched_at_most_once :
    (∀ (cfg : Config) (st : WatcherState) (inputs : List PassInput),
      ((runPasses cfg st inputs).2.countP (fun tr => dispatchOk tr)) ≤ 1) ∧
    (∀ (cfg : Config) (st : WatcherState) (inp : PassInput),
      Effect.hsetWebhookSent ∈ (handleJob cfg st inp).2 →
        ∃ hsh, Effect.dispatch hsh true ∈ (handleJob cfg st inp).2) ∧
    (∀ (cfg : Config) (st : WatcherState) (inp : PassInput) (j : Job),
      st.job = some j → j.webhookSent = true →
        (∀ hsh b, Effect.dispatch hsh b ∉ (handleJob cfg st inp).2) ∧
        (∀ hsh, Effect.buildPayload hsh ∈ (handleJob cfg st inp).2 →
          Effect.markSeen hsh ∈ (handleJob cfg st inp).2 ∧
          Effect.deleteJob ∈ (handleJob cfg st inp).2)) :=
  ⟨fun cfg st inputs => runPasses_count_dispatch cfg inputs st,
   fun cfg st inp h => handleJob_hsetWS cfg st inp h,
   fun cfg st inp j hj hs => handleJob_sent_skip cfg st inp j hj hs⟩

theorem webhook_dispatched_at_most_once_witness :
    ((runPasses cfgDefault stFresh [inpOk, inpOk]).2.countP (fun tr => dispatchOk tr)) ≤ 1 ∧
    Effect.dispatch "H" true ∉ (handleJob cfgDefault stSent inpOk).2 :=
  ⟨webhook_dispatched_at_most_once.1 cfgDefault stFresh [inpOk, inpOk],
   (webhook_dispatched_at_most_once.2.2 cfgDefault stSent inpOk jobSent rfl rfl).1 "H" true⟩

/-- C9: the dynamic confirmation policy replaces `minConf` in at most one
pass of any run, and once a Job's `dynamicMinConfApplied` flag is true a
pass neither re-applies the policy nor changes `minConf`. -/
theorem dynamic_minconf_applied_at_most_once :
    (∀ (cfg : Config) (st : WatcherState) (inputs : List PassInput),
      ((runPasses cfg st inputs).2.countP (fun tr => dynApplied tr)) ≤ 1) ∧
    (∀ (cfg : Config) (st : WatcherState) (inp : PassInput) (j : Job),
      st.job = some j → j.dynamicMinConfApplied = true →
        dynApplied (handleJob cfg st inp).2 = false ∧
        ((handleJob cfg st inp).1.job = none ∨
         ∃ j2, (handleJob cfg st inp).1.job = some j2 ∧
           j2.dynamicMinConfApplied = true ∧ j2.minConf = j.minConf)) :=
  ⟨fun cfg st inputs => runPasses_count_dyn cfg inputs st,
   fun cfg st inp j hj hf => handleJob_flag cfg st inp j hj hf⟩

theorem dynamic_minconf_applied_at_most_once_witness :
    ((runPasses cfgDefault stFresh [inpOk, inpOk]).2.countP (fun tr => dynApplied tr)) ≤ 1 ∧
    dynApplied (handleJob cfgDefault stFresh inpOk).2 = false :=
  ⟨dynamic_minconf_applied_at_most_once.1 cfgDefault stFresh [inpOk, inpOk],
   (dynamic_minconf_applied_at_most_once.2 cfgDefault stFresh inpOk jobFresh rfl rfl).1⟩

end NanoRpcProxy

namespace NanoRpcProxy

/-- C2: in any pass whose webhook dispatch received a 2xx, the trace ends
with the COMPLETED status write and the `webhookSent = true` hset strictly
before the Seen mark and the Job deletion (no Seen mark or deletion happens
earlier in the pass); and a pass that reloads a Job whose `webhookSent` is
already persisted never re-dispatches. -/
theorem completed_written_before_seen_and_delete :
    (∀ (cfg : Config) (st : WatcherState) (inp : PassInput) (hsh : String),
      Effect.dispatch hsh true ∈ (handleJob cfg st inp).2 →
      ∃ l, (handleJob cfg st inp).2 =
          l ++ [Effect.statusWrite .COMPLETED none, Effect.hsetWebhookSent,
                Effect.markSeen hsh, Effect.deleteJob] ∧
        (∀ h2, Effect.markSeen h2 ∉ l) ∧ Effect.deleteJob ∉ l) ∧
    (∀ (cfg : Config) (st : WatcherState) (inp : PassInput) (j : Job),
      st.job = some j → j.webhookSent = true →
        ∀ hsh b, Effect.dispatch hsh b ∉ (handleJob cfg st inp).2) := by
  constructor
  · intro cfg st inp hsh h
    rcases hpre : handleJobPre cfg st inp with r | ctx
    · rw [handleJob_inl cfg st inp r hpre] at h
      exact absurd h ((pre_inl cfg st inp r hpre).2.2.1 hsh true)
    · rw [handleJob_inr cfg st inp ctx hpre] at h ⊢
      obtain ⟨_, _, htrace, _⟩ := pre_inr cfg st inp ctx hpre
      obtain ⟨_, _, hnd, hnm, hndel, _, _⟩ := preTraceOnly_facts htrace
      rcases List.mem_append.mp h with hm | hm
      · exact absurd hm (hnd hsh true)
      · obtain ⟨hh, hok⟩ := hc_dispatch_true_eq cfg inp ctx hsh hm
        subst hh
        rw [hok]
        refine ⟨ctx.trace ++ [Effect.seenCheck ctx.confirmed.hash,
          Effect.buildPayload ctx.confirmed.hash, Effect.statusWrite .CONFIRMING none,
          Effect.dispatch ctx.confirmed.hash true, Effect.ledgerWebhookResult true], ?_, ?_, ?_⟩
        · simp [hcOkLeaf, hcPrefixTrace]
        · intro h2 hmem
          rcases List.mem_append.mp hmem with hm2 | hm2
          · exact hnm h2 hm2
          · simp at hm2
        · intro hmem
          rcases List.mem_append.mp hmem with hm2 | hm2
          · exact hndel hm2
          · simp at hm2
  · intro cfg st inp j hj hs
    exact (handleJob_sent_skip cfg st inp j hj hs).1

theorem completed_written_before_seen_and_delete_witness :
    ∃ l, (handleJob cfgDefault stFresh inpOk).2 =
        l ++ [Effect.statusWrite .COMPLETED none, Effect.hsetWebhookSent,
              Effect.markSeen "H", Effect.deleteJob] ∧
      (∀ h2, Effect.markSeen h2 ∉ l) ∧ Effect.deleteJob ∉ l :=
  completed_written_before_seen_and_delete.1 cfgDefault stFresh inpOk "H" (by decide)

/-- C3: in every pass that finds a confirmed observation, the Seen guard for
the observation's hash is the first action of the confirmed logic — in
particular it precedes the payload construction, which never occurs in the
preceding trace — and when the Seen entry exists the pass deletes the Job
and dispatches no webhook. -/
theorem seen_guard_checked_before_payload :
    ∀ (cfg : Config) (st : WatcherState) (inp : PassInput) (ctx : ConfirmedCtx),
      handleJobPre cfg st inp = .inr ctx →
      (∃ rest, (handleJob cfg st inp).2 =
         ctx.trace ++ (Effect.seenCheck ctx.confirmed.hash :: rest)) ∧
      (∀ hsh, Effect.buildPayload hsh ∉ ctx.trace) ∧
      (st.seen.contains ctx.confirmed.hash = true →
        (handleJob cfg st inp).2 = ctx.trace ++ [Effect.seenCheck ctx.confirmed.hash, Effect.deleteJob] ∧
        (handleJob cfg st inp).1.job = none ∧
        (∀ hsh b, Effect.dispatch hsh b ∉ (handleJob cfg st inp).2)) := by
  intro cfg st inp ctx hpre
  obtain ⟨_, hseen, htrace, _⟩ := pre_inr cfg st inp ctx hpre
  obtain ⟨_, _, hnd, _, _, hnb, _⟩ := preTraceOnly_facts htrace
  rw [handleJob_inr cfg st inp ctx hpre]
  refine ⟨?_, hnb, ?_⟩
  · obtain ⟨rest, hrest⟩ := hc_starts cfg inp ctx
    exact ⟨rest, by rw [hrest]⟩
  · intro hcont
    have hcont2 : ctx.midState.seen.contains ctx.confirmed.hash = true := by
      rw [hseen]
      exact hcont
    rw [hc_seen_eq cfg inp ctx hcont2]
    refine ⟨rfl, rfl, ?_⟩
    intro hsh b hmem
    rcases List.mem_append.mp hmem with hm | hm
    · exact hnd hsh b hm
    · simp [hcSeenLeaf] at hm

theorem seen_guard_checked_before_payload_witness :
    (∃ rest, (handleJob cfgDefault stSeen inpOk).2 =
       ctxSeen.trace ++ (Effect.seenCheck ctxSeen.confirmed.hash :: rest)) ∧
    (∀ hsh, Effect.buildPayload hsh ∉ ctxSeen.trace) ∧
    (stSeen.seen.contains ctxSeen.confirmed.hash = true →
      (handleJob cfgDefault stSeen inpOk).2 =
        ctxSeen.trace ++ [Effect.seenCheck ctxSeen.confirmed.hash, Effect.deleteJob] ∧
      (handleJob cfgDefault stSeen inpOk).1.job = none ∧
      (∀ hsh b, Effect.dispatch hsh b ∉ (handleJob cfgDefault stSeen inpOk).2)) :=
  seen_guard_checked_before_payload cfgDefault stSeen inpOk ctxSeen (by decide)

end NanoRpcProxy

namespace NanoRpcProxy

/-- C4: when a pass reaches the webhook logic with `webhookSent` false and
the retry window is configured, a recorded first attempt, and
`now - webhookFirstAttemptAt > maxRetryWindowMs`, the pass writes a FAILED
Status carrying the last webhook error, marks Seen for the confirmed hash,
deletes the Job, and performs no webhook dispatch. -/
theorem retry_window_expiry_fails_job :
    ∀ (cfg : Config) (st : WatcherState) (inp : PassInput) (ctx : ConfirmedCtx),
      handleJobPre cfg st inp = .inr ctx →
      st.seen.contains ctx.confirmed.hash = false →
      ctx.job.webhookSent = false →
      windowExceeded cfg ctx.job inp.now →
      ctx.job.webhookLastError ≠ "" →
      ctx.job.webhookLastError.length ≤ 500 →
      Effect.statusWrite .FAILED (some ctx.job.webhookLastError) ∈ (handleJob cfg st inp).2 ∧
      Effect.markSeen ctx.confirmed.hash ∈ (handleJob cfg st inp).2 ∧
      Effect.deleteJob ∈ (handleJob cfg st inp).2 ∧
      (∀ hsh b, Effect.dispatch hsh b ∉ (handleJob cfg st inp).2) ∧
      (handleJob cfg st inp).1.job = none ∧
      (handleJob cfg st inp).1.status =
        some (mkStatus .FAILED ctx.confirmed.confirmations ctx.minConf ctx.confirmed.hash
          ctx.job.statusPaymentId (some ctx.job.webhookLastError)) := by
  intro cfg st inp ctx hpre hseen hsent hw hne hlen
  obtain ⟨_, hms, htrace, _⟩ := pre_inr cfg st inp ctx hpre
  obtain ⟨_, _, hnd, _, _, _, _⟩ := preTraceOnly_facts htrace
  have hseen2 : ctx.midState.seen.contains ctx.confirmed.hash = false := by rw [hms]; exact hseen
  have herr : truncateText
      (if ctx.job.webhookLastError = "" then "webhook retry window exceeded"
       else ctx.job.webhookLastError) 500 = ctx.job.webhookLastError := by
    rw [if_neg hne]
    exact truncateText_of_le hlen
  rw [handleJob_inr cfg st inp ctx hpre, hc_window_eq cfg inp ctx hseen2 hsent hw]
  refine ⟨?_, ?_, ?_, ?_, ?_, ?_⟩
  · exact List.mem_append_right _ (by simp [hcWindowLeaf, herr])
  · exact List.mem_append_right _ (by simp [hcWindowLeaf, hcPrefixTrace])
  · exact List.mem_append_right _ (by simp [hcWindowLeaf, hcPrefixTrace])
  · intro hsh b hmem
    rcases List.mem_append.mp hmem with hm | hm
    · exact hnd hsh b hm
    · simp [hcWindowLeaf, hcPrefixTrace] at hm
  · rfl
  · simp [hcWindowLeaf, herr]

theorem retry_window_expiry_fails_job_witness :
    Effect.statusWrite .FAILED (some "err") ∈
      (handleJob cfgDefault stRetry (inpFail 10000000)).2 ∧
    Effect.markSeen "H" ∈ (handleJob cfgDefault stRetry (inpFail 10000000)).2 ∧
    Effect.deleteJob ∈ (handleJob cfgDefault stRetry (inpFail 10000000)).2 ∧
    (∀ hsh b, Effect.dispatch hsh b ∉ (handleJob cfgDefault stRetry (inpFail 10000000)).2) ∧
    (handleJob cfgDefault stRetry (inpFail 10000000)).1.job = none :=
  let h := retry_window_expiry_fails_job cfgDefault stRetry (inpFail 10000000) ctxRetry
    (by decide) (by decide) (by decide) (by decide) (by decide) (by decide)
  ⟨h.1, h.2.1, h.2.2.1, h.2.2.2.1, h.2.2.2.2.1⟩

/-- C5: when a pass reaches the webhook logic with `webhookSent` false, the
retry window not exceeded, and `webhookMaxAttempts > 0` with
`webhookAttempts ≥ webhookMaxAttempts`, the pass dispatches no webhook,
deletes nothing, marks nothing Seen, keeps the Job, and leaves the Status
held at CONFIRMING. -/
theorem max_attempts_holds_job_in_confirming :
    ∀ (cfg : Config) (st : WatcherState) (inp : PassInput) (ctx : ConfirmedCtx),
      handleJobPre cfg st inp = .inr ctx →
      st.seen.contains ctx.confirmed.hash = false →
      ctx.job.webhookSent = false →
      ¬ windowExceeded cfg ctx.job inp.now →
      maxAttemptsReached cfg ctx.job →
      (∀ hsh b, Effect.dispatch hsh b ∉ (handleJob cfg st inp).2) ∧
      Effect.deleteJob ∉ (handleJob cfg st inp).2 ∧
      (∀ hsh, Effect.markSeen hsh ∉ (handleJob cfg st inp).2) ∧
      (handleJob cfg st inp).1.job = ctx.midState.job ∧
      (∃ j, (handleJob cfg st inp).1.job = some j) ∧
      (handleJob cfg st inp).1.status = some (confirmingStatusRec ctx) := by
  intro cfg st inp ctx hpre hseen hsent hw hm
  obtain ⟨_, hms, htrace, _, _, hj, _⟩ := pre_inr cfg st inp ctx hpre
  obtain ⟨_, _, hnd, hnm, hndel, _, _⟩ := preTraceOnly_facts htrace
  have hseen2 : ctx.midState.seen.contains ctx.confirmed.hash = false := by rw [hms]; exact hseen
  rw [handleJob_inr cfg st inp ctx hpre, hc_held_eq cfg inp ctx hseen2 hsent hw hm]
  refine ⟨?_, ?_, ?_, rfl, ?_, rfl⟩
  · intro hsh b hmem
    rcases List.mem_append.mp hmem with h2 | h2
    · exact hnd hsh b h2
    · simp [hcHeldLeaf, hcPrefixTrace] at h2
  · intro hmem
    rcases List.mem_append.mp hmem with h2 | h2
    · exact hndel h2
    · simp [hcHeldLeaf, hcPrefixTrace] at h2
  · intro hsh hmem
    rcases List.mem_append.mp hmem with h2 | h2
    · exact hnm hsh h2
    · simp [hcHeldLeaf, hcPrefixTrace] at h2
  · exact hj

theorem max_attempts_holds_job_in_confirming_witness :
    (∀ hsh b, Effect.dispatch hsh b ∉ (handleJob cfgMaxAtt stAtt inpOk).2) ∧
    Effect.deleteJob ∉ (handleJob cfgMaxAtt stAtt inpOk).2 ∧
    (∃ j, (handleJob cfgMaxAtt stAtt inpOk).1.job = some j) ∧
    (handleJob cfgMaxAtt stAtt inpOk).1.status = some (confirmingStatusRec ctxAtt) :=
  let h := max_attempts_holds_job_in_confirming cfgMaxAtt stAtt inpOk ctxAtt
    (by decide) (by decide) (by decide) (by decide) (by decide)
  ⟨h.1, h.2.1, h.2.2.2.2.1, h.2.2.2.2.2⟩

end NanoRpcProxy

namespace NanoRpcProxy

def cfgJitter : Config := { cfgDefault with webhookBackoffJitter := true }

/-- C6 counterexample: with `baseMs = 1000`, `factor = 2`, jitter disabled,
the pass that records the first failed attempt schedules the next attempt at
`T + 2s`, not the claimed `T + 1s`, because the delay is computed from the
post-increment attempt count. -/
theorem webhook_backoff_first_retry_cex :
    (handleJob cfgDefault stFresh (inpFail 1000000)).1.job.map Job.webhookNextAttemptAt
      = some 1002000 ∧ (1002000 : Nat) ≠ 1000000 + 1000 :=
  ⟨by decide, by decide⟩

/-- C6 (amended): the retry delay recorded after a failed attempt equals
`min(baseMs * factor ^ n, maxMs)` where `n` is the post-increment attempt
count `webhookAttempts + 1` (the jittered variant draws from that value); in
particular with `baseMs = 1000`, `factor = 2`, jitter disabled, the next
attempt is scheduled at `T + 2s` after the first failure and at `T + 6s`
cumulative after the second. -/
theorem webhook_backoff_schedule :
    (∀ (attempts : Nat) (cfg : Config) (roll : Nat → Nat),
      cfg.webhookBackoffJitter = false →
      computeWebhookBackoffDelayMs attempts cfg roll =
        min (cfg.webhookBackoffBaseMs * cfg.webhookBackoffFactor ^ attempts)
          cfg.webhookBackoffMaxMs) ∧
    (∀ (attempts : Nat) (cfg : Config) (roll : Nat → Nat),
      cfg.webhookBackoffJitter = true →
      computeWebhookBackoffDelayMs attempts cfg roll =
        roll (min (cfg.webhookBackoffBaseMs * cfg.webhookBackoffFactor ^ attempts)
          cfg.webhookBackoffMaxMs)) ∧
    (∀ (cfg : Config) (inp : PassInput) (ctx : ConfirmedCtx) (j : Job),
      ctx.midState.job = some j →
      (hcFailLeaf cfg inp ctx).1.job.map Job.webhookNextAttemptAt =
        some (inp.now +
          computeWebhookBackoffDelayMs (ctx.job.webhookAttempts + 1) cfg inp.jitterRoll)) ∧
    ((runPasses cfgDefault stFresh [inpFail 1000000]).1.job.map Job.webhookNextAttemptAt
      = some (1000000 + 2000)) ∧
    ((runPasses cfgDefault stFresh
        [inpFail 1000000, inpFail 1002000]).1.job.map Job.webhookNextAttemptAt
      = some (1000000 + 6000)) := by
  refine ⟨?_, ?_, ?_, by decide, by decide⟩
  · intro attempts cfg roll h
    simp [computeWebhookBackoffDelayMs, h]
  · intro attempts cfg roll h
    simp [computeWebhookBackoffDelayMs, h]
  · intro cfg inp ctx j hj
    simp [hcFailLeaf, hj]

theorem webhook_backoff_schedule_witness :
    computeWebhookBackoffDelayMs 1 cfgDefault (fun n => n) =
      min (cfgDefault.webhookBackoffBaseMs * cfgDefault.webhookBackoffFactor ^ 1)
        cfgDefault.webhookBackoffMaxMs ∧
    computeWebhookBackoffDelayMs 1 cfgJitter (fun n => n / 2) =
      (fun n => n / 2) (min (cfgJitter.webhookBackoffBaseMs * cfgJitter.webhookBackoffFactor ^ 1)
        cfgJitter.webhookBackoffMaxMs) ∧
    (hcFailLeaf cfgDefault (inpFail 1000000) ctxRetry).1.job.map Job.webhookNextAttemptAt =
      some (1000000 +
        computeWebhookBackoffDelayMs (ctxRetry.job.webhookAttempts + 1) cfgDefault
          (inpFail 1000000).jitterRoll) :=
  ⟨webhook_backoff_schedule.1 1 cfgDefault (fun n => n) rfl,
   webhook_backoff_schedule.2.1 1 cfgJitter (fun n => n / 2) rfl,
   webhook_backoff_schedule.2.2.1 cfgDefault (inpFail 1000000) ctxRetry jobRetry rfl⟩

end NanoRpcProxy

namespace NanoRpcProxy

/-- C8: the dynamic confirmation policy on a non-negative atomic amount is a
step function of the amount with exactly the two breakpoints `50 * 10 ^ d`
and `100 * 10 ^ d`: it returns 1 below the first, 3 from the first up to but
excluding the second, and 6 from the second on. -/
theorem dynamic_minconf_step_function (a d : Nat) :
    computeDynamicMinConfirmations (.bigint (a : Int)) (d : Int) =
      some (if a < 50 * 10 ^ d then 1 else if a < 100 * 10 ^ d then 3 else 6) := by
  have h0 : (0 : Int) ≤ (d : Int) := Int.natCast_nonneg d
  simp only [computeDynamicMinConfirmations, toBigInt, if_pos h0, Int.toNat_natCast]
  have h50 : ((a : Int) < 50 * (10 : Int) ^ d) ↔ a < 50 * 10 ^ d := by
    constructor
    · intro h; exact_mod_cast h
    · intro h; exact_mod_cast h
  have h100 : ((a : Int) < 100 * (10 : Int) ^ d) ↔ a < 100 * 10 ^ d := by
    constructor
    · intro h; exact_mod_cast h
    · intro h; exact_mod_cast h
  by_cases hc1 : a < 50 * 10 ^ d
  · rw [if_pos (h50.mpr hc1), if_pos hc1]
  · rw [if_neg (fun hh => hc1 (h50.mp hh)), if_neg hc1]
    by_cases hc2 : a < 100 * 10 ^ d
    · rw [if_pos (h100.mpr hc2), if_pos hc2]
    · rw [if_neg (fun hh => hc2 (h100.mp hh)), if_neg hc2]

lemma stripTrailingZeros_toList (s : String) :
    (stripTrailingZeros s).toList = s.toList.rdropWhile (fun c => c = '0') := rfl

lemma rdropWhile_zero_getLast (l : List Char) :
    (l.rdropWhile (fun c => decide (c = '0'))).getLast? ≠ some '0' := by
  by_cases h : l.rdropWhile (fun c => decide (c = '0')) = []
  · rw [h]; simp
  · rw [List.getLast?_eq_getLast _ h]
    have hlast := List.rdropWhile_last_not (fun c => decide (c = '0')) l h
    simp only [decide_eq_true_eq] at hlast
    exact fun hc => hlast (Option.some.inj hc)

lemma stripTrailingZeros_ne_empty {s : String} (h : ∃ c ∈ s.toList, c ≠ '0') :
    stripTrailingZeros s ≠ "" := by
  obtain ⟨c, hc, hne⟩ := h
  intro hEq
  have hl : (stripTrailingZeros s).toList = [] := by rw [hEq]; rfl
  rw [stripTrailingZeros_toList, List.rdropWhile_eq_nil_iff] at hl
  have := hl c hc
  simp only [decide_eq_true_eq] at this
  exact hne this

lemma stripTrailingZeros_no_trailing_zero (s : String) :
    (stripTrailingZeros s).toList.getLast? ≠ some '0' := by
  rw [stripTrailingZeros_toList]
  exact rdropWhile_zero_getLast s.toList

lemma padStart_toList (s : String) (n : Nat) (c : Char) :
    (padStart s n c).toList =
      if n ≤ s.length then s.toList else List.replicate (n - s.length) c ++ s.toList := by
  unfold padStart
  split_ifs with h
  · rfl
  · simp [String.toList, String.data_append]

lemma mem_padStart_of_mem {s : String} {x : Char} (hx : x ∈ s.toList) (n : Nat) (c : Char) :
    x ∈ (padStart s n c).toList := by
  rw [padStart_toList]
  split_ifs with h
  · exact hx
  · exact List.mem_append_right _ hx

lemma digitChar_ne_zero {n : Nat} (h0 : n ≠ 0) (h10 : n < 10) : Nat.digitChar n ≠ '0' := by
  interval_cases n <;> simp_all <;> decide

lemma toDigitsCore_head_ne_zero :
    ∀ (fuel n : Nat) (ds : List Char), n ≠ 0 → n < fuel →
      ∃ c cs, Nat.toDigitsCore 10 fuel n ds = c :: cs ∧ c ≠ '0'
  | 0, n, ds, h0, hf => absurd hf (by omega)
  | fuel+1, n, ds, h0, hf => by
    unfold Nat.toDigitsCore
    by_cases h : n / 10 = 0
    · refine ⟨Nat.digitChar (n % 10), ds, by simp [h], ?_⟩
      have hn10 : n < 10 := (Nat.div_eq_zero_iff (by norm_num)).mp h
      rw [Nat.mod_eq_of_lt hn10]
      exact digitChar_ne_zero h0 hn10
    · have hlt : n / 10 < fuel :=
        lt_of_lt_of_le (Nat.div_lt_self (Nat.pos_of_ne_zero h0) (by norm_num)) (Nat.lt_succ_iff.mp hf)
      have ih := toDigitsCore_head_ne_zero fuel (n / 10) (Nat.digitChar (n % 10) :: ds) h hlt
      simpa [h] using ih

lemma repr_has_nonzero_char {n : Nat} (h0 : n ≠ 0) :
    ∃ c ∈ (Nat.repr n).toList, c ≠ '0' := by
  obtain ⟨c, cs, hEq, hc⟩ := toDigitsCore_head_ne_zero (n+1) n [] h0 (Nat.lt_succ_self n)
  refine ⟨c, ?_, hc⟩
  have hrl : (Nat.repr n).toList = Nat.toDigitsCore 10 (n+1) n [] := rfl
  rw [hrl, hEq]
  exact List.mem_cons_self _ _

/-- C10 counterexample: `formatAtomicAmount` does not reject negative
amounts: `-5` atomic with 12 decimals yields the malformed string
`"0.0000000000-5"` rather than the claimed `null`. -/
theorem formatAtomic_negative_cex :
    formatAtomicAmount (.bigint (-5)) 12 = some "0.0000000000-5" ∧
    formatAtomicAmount (.bigint (-5)) 12 ≠ none := by
  constructor
  · rfl
  · decide

/-- C10 (amended): `formatAtomicAmount` yields `null` for `undefined`,
`null` and non-finite inputs; `decimals = 0` yields the bare integer string;
a non-negative integer yields the integer part when the fraction is zero and
otherwise a fixed-point string whose fractional part is non-empty with
trailing zeros trimmed, so there is never a trailing dot or trailing zero.
Negative inputs are NOT rejected (see the counterexample). -/
theorem formatAtomic_fixed_point :
    (∀ d, formatAtomicAmount .undef d = none ∧ formatAtomicAmount .null d = none ∧
      formatAtomicAmount .numNonFinite d = none) ∧
    (∀ i : Int, formatAtomicAmount (.bigint i) 0 = some (toString i)) ∧
    (∀ a d : Nat, ∃ s : String,
      formatAtomicAmount (.bigint (a : Int)) d = some s ∧
      ((a % 10 ^ d = 0 ∧ s = Nat.repr (a / 10 ^ d)) ∨
       (a % 10 ^ d ≠ 0 ∧
         s = Nat.repr (a / 10 ^ d) ++ "." ++
             stripTrailingZeros (padStart (Nat.repr (a % 10 ^ d)) d '0') ∧
         stripTrailingZeros (padStart (Nat.repr (a % 10 ^ d)) d '0') ≠ "" ∧
         (stripTrailingZeros (padStart (Nat.repr (a % 10 ^ d)) d '0')).toList.getLast?
           ≠ some '0'))) := by
  refine ⟨fun d => ⟨rfl, rfl, rfl⟩, fun i => by simp [formatAtomicAmount, toBigInt], ?_⟩
  intro a d
  have hscale : ((10 : Int) ^ d) = ((10 ^ d : Nat) : Int) := by push_cast; ring
  have htmod : ((a : Int).tmod ((10 : Int) ^ d)) = ((a % 10 ^ d : Nat) : Int) := by
    rw [hscale, ← Int.ofNat_tmod]
  have htdiv : ((a : Int).tdiv ((10 : Int) ^ d)) = ((a / 10 ^ d : Nat) : Int) := by
    rw [hscale, ← Int.ofNat_tdiv]
  have hts : ∀ m : Nat, toString ((m : Nat) : Int) = Nat.repr m := fun m => rfl
  simp only [formatAtomicAmount, toBigInt, htmod, htdiv]
  by_cases h0 : a % 10 ^ d = 0
  · refine ⟨Nat.repr (a / 10 ^ d), ?_, Or.inl ⟨h0, rfl⟩⟩
    rw [if_pos (by exact_mod_cast h0)]
    rw [hts]
  · refine ⟨Nat.repr (a / 10 ^ d) ++ "." ++
      stripTrailingZeros (padStart (Nat.repr (a % 10 ^ d)) d '0'), ?_, ?_⟩
    · rw [if_neg (by exact_mod_cast h0)]
      rw [hts, hts]
    · refine Or.inr ⟨h0, rfl, ?_, stripTrailingZeros_no_trailing_zero _⟩
      apply stripTrailingZeros_ne_empty
      obtain ⟨c, hc, hne⟩ := repr_has_nonzero_char h0
      exact ⟨c, mem_padStart_of_mem hc d '0', hne⟩

end NanoRpcProxy

namespace NanoRpcProxy

lemma insertObs_mem {m : List Observation} {e o : Observation}
    (h : o ∈ insertObs m e) : o ∈ m ∨ o = e := by
  unfold insertObs at h
  rcases hf : m.find? (fun x => x.hash == e.hash) with _ | ex <;> simp only [hf] at h
  · rcases List.mem_append.mp h with h2 | h2
    · exact Or.inl h2
    · simp at h2
      exact Or.inr h2
  · by_cases hc : ex.confirmations < e.confirmations
    · rw [if_pos hc] at h
      rcases List.mem_map.mp h with ⟨x, hx, hxe⟩
      by_cases hh : x.hash == e.hash
      · rw [if_pos hh] at hxe
        exact Or.inr hxe.symm
      · rw [if_neg hh] at hxe
        exact Or.inl (hxe ▸ hx)
    · rw [if_neg hc] at h
      exact Or.inl h

lemma foldlInsertGuard_mem {es : List Observation} :
    ∀ {init : List Observation} {o : Observation},
      o ∈ es.foldl (fun m2 e => if e.hash = "" then m2 else insertObs m2 e) init →
      o ∈ init ∨ o ∈ es := by
  induction es with
  | nil => exact fun h => Or.inl h
  | cons e rest ih =>
    intro init o h
    rw [List.foldl_cons] at h
    rcases ih h with h2 | h2
    · by_cases hh : e.hash = ""
      · rw [if_pos hh] at h2
        exact Or.inl h2
      · rw [if_neg hh] at h2
        rcases insertObs_mem h2 with h3 | h3
        · exact Or.inl h3
        · exact Or.inr (h3 ▸ List.mem_cons_self e rest)
    · exact Or.inr (List.mem_cons_of_mem e h2)

lemma subtransferEntries_mem {ea : String} {ch : Nat} {pid : String} {tx : Transfer}
    {o : Observation} (h : o ∈ subtransferEntries ea ch pid tx) :
    tx.payment_id = pid ∧ o.hash = tx.tx_hash ∧
    ∃ s ∈ tx.subtransfers, s.is_income = true ∧
      ((ea = "" ∧ jsTrim s.asset_id = "") ∨ (ea ≠ "" ∧ jsTrim s.asset_id = ea)) ∧
      o.amountAtomic = s.amount := by
  unfold subtransferEntries at h
  by_cases hp : tx.payment_id = pid
  · rw [if_neg (not_not_intro hp)] at h
    rcases List.mem_map.mp h with ⟨s, hs, hso⟩
    obtain ⟨hmem, hpred⟩ := List.mem_filter.mp hs
    rw [Bool.and_eq_true] at hpred
    obtain ⟨h1, h2⟩ := hpred
    refine ⟨hp, by rw [← hso], s, hmem, h1, ?_, by rw [← hso]⟩
    by_cases hea : ea = ""
    · rw [if_neg (not_not_intro hea)] at h2
      exact Or.inl ⟨hea, eq_of_beq h2⟩
    · rw [if_pos hea] at h2
      exact Or.inr ⟨hea, eq_of_beq h2⟩
  · rw [if_pos hp] at h
    simp at h

lemma recentTxsFallback_mem {ea : String} {ch : Nat} {pid : String} {txs : List Transfer} :
    ∀ {init : List Observation} {o : Observation},
      o ∈ recentTxsFallback ea ch pid txs init →
      o ∈ init ∨ ∃ tx ∈ txs, o ∈ subtransferEntries ea ch pid tx := by
  induction txs with
  | nil => exact fun h => Or.inl h
  | cons tx rest ih =>
    intro init o h
    unfold recentTxsFallback at h ih
    rw [List.foldl_cons] at h
    rcases ih h with h2 | ⟨tx2, htx2, ho2⟩
    · rcases foldlInsertGuard_mem h2 with h3 | h3
      · exact Or.inl h3
      · exact Or.inr ⟨tx, List.mem_cons_self tx rest, h3⟩
    · exact Or.inr ⟨tx2, List.mem_cons_of_mem tx htx2, ho2⟩

lemma fetchViaRpc_asset (eaRaw : String) (ch : Nat) (payments : List Payment)
    (transfers : List Transfer) (pid : String) (hpid : pid ≠ "") (h : jsTrim eaRaw ≠ "") :
    fetchViaRpc eaRaw ch payments transfers pid =
      recentTxsFallback (jsTrim eaRaw) ch pid transfers [] := by
  simp only [fetchViaRpc, if_neg hpid, if_neg h]
  rfl

lemma fetchViaRpc_base (eaRaw : String) (ch : Nat) (payments : List Payment)
    (transfers : List Transfer) (pid : String) (hpid : pid ≠ "") (h : jsTrim eaRaw = "") :
    fetchViaRpc eaRaw ch payments transfers pid =
      (if (insertPayments ch payments).isEmpty
       then recentTxsFallback "" ch pid transfers (insertPayments ch payments)
       else insertPayments ch payments) := by
  simp only [fetchViaRpc, if_neg hpid, if_pos h, h, if_true]

def payX : Payment := ⟨"PH", 5, 10, 2⟩
def subA : Subtransfer := ⟨true, 7, "ASSET"⟩
def txA : Transfer := ⟨"pid1", "TH", 9, [subA]⟩

/-- C7: with a non-empty configured assetId the fetch skips `get_payments`
(the result does not depend on it) and every returned observation comes from
a transfer carrying the Job's payment_id via an `is_income` subtransfer whose
trimmed asset_id equals the expected assetId; with no assetId configured the
`get_payments` map is used when non-empty, and otherwise every observation
comes from the `get_recent_txs_and_info2` fallback restricted to `is_income`
subtransfers with an empty trimmed asset_id on a transfer carrying the Job's
payment_id. -/
theorem assetId_filtering :
    (∀ (eaRaw : String) (ch : Nat) (payments : List Payment)
        (transfers : List Transfer) (pid : String),
      jsTrim eaRaw ≠ "" →
      fetchViaRpc eaRaw ch payments transfers pid =
        fetchViaRpc eaRaw ch [] transfers pid ∧
      ∀ o ∈ fetchViaRpc eaRaw ch payments transfers pid,
        ∃ tx ∈ transfers, tx.payment_id = pid ∧ o.hash = tx.tx_hash ∧
          ∃ s ∈ tx.subtransfers, s.is_income = true ∧ jsTrim s.asset_id = jsTrim eaRaw ∧
            o.amountAtomic = s.amount) ∧
    (∀ (eaRaw : String) (ch : Nat) (payments : List Payment)
        (transfers : List Transfer) (pid : String),
      jsTrim eaRaw = "" → pid ≠ "" →
      (insertPayments ch payments ≠ [] →
        fetchViaRpc eaRaw ch payments transfers pid = insertPayments ch payments) ∧
      (insertPayments ch payments = [] →
        ∀ o ∈ fetchViaRpc eaRaw ch payments transfers pid,
          ∃ tx ∈ transfers, tx.payment_id = pid ∧ o.hash = tx.tx_hash ∧
            ∃ s ∈ tx.subtransfers, s.is_income = true ∧ jsTrim s.asset_id = "" ∧
              o.amountAtomic = s.amount)) := by
  constructor
  · intro eaRaw ch payments transfers pid h
    by_cases hpid : pid = ""
    · subst hpid
      refine ⟨rfl, ?_⟩
      intro o ho
      simp [fetchViaRpc] at ho
    · rw [fetchViaRpc_asset eaRaw ch payments transfers pid hpid h,
          fetchViaRpc_asset eaRaw ch [] transfers pid hpid h]
      refine ⟨rfl, ?_⟩
      intro o ho
      rcases recentTxsFallback_mem ho with h2 | ⟨tx, htx, ho2⟩
      · simp at h2
      · obtain ⟨hp, hh, s, hs, hinc, hasset, hamt⟩ := subtransferEntries_mem ho2
        rcases hasset with ⟨he, _⟩ | ⟨_, he⟩
        · exact absurd he h
        · exact ⟨tx, htx, hp, hh, s, hs, hinc, he, hamt⟩
  · intro eaRaw ch payments transfers pid h hpid
    rw [fetchViaRpc_base eaRaw ch payments transfers pid hpid h]
    constructor
    · intro hne
      rcases hb : insertPayments ch payments with _ | ⟨x, xs⟩
      · exact absurd hb hne
      · simp
    · intro hnil
      rw [hnil]
      intro o ho
      rw [if_pos List.isEmpty_nil] at ho
      rcases recentTxsFallback_mem ho with h2 | ⟨tx, htx, ho2⟩
      · simp at h2
      · obtain ⟨hp, hh, s, hs, hinc, hasset, hamt⟩ := subtransferEntries_mem ho2
        rcases hasset with ⟨_, he⟩ | ⟨he, _⟩
        · exact ⟨tx, htx, hp, hh, s, hs, hinc, he, hamt⟩
        · exact absurd rfl he

theorem assetId_filtering_witness :
    fetchViaRpc "ASSET" 10 [payX] [txA] "pid1" = fetchViaRpc "ASSET" 10 [] [txA] "pid1" ∧
    (∃ tx ∈ [txA], tx.payment_id = "pid1" ∧
      (Observation.mk "TH" 7 2).hash = tx.tx_hash ∧
      ∃ s ∈ tx.subtransfers, s.is_income = true ∧
        jsTrim s.asset_id = jsTrim "ASSET" ∧
        (Observation.mk "TH" 7 2).amountAtomic = s.amount) ∧
    fetchViaRpc "" 10 [payX] [txA] "pid1" = insertPayments 10 [payX] :=
  ⟨(assetId_filtering.1 "ASSET" 10 [payX] [txA] "pid1" (by decide)).1,
   (assetId_filtering.1 "ASSET" 10 [payX] [txA] "pid1" (by decide)).2
     (Observation.mk "TH" 7 2) (by decide),
   (assetId_filtering.2 "" 10 [payX] [txA] "pid1" (by decide) (by decide)).1 (by decide)⟩

end NanoRpcProxy
